import Mathlib

/-!
Verification of the imbalance/skewness detection-and-correction engine of
BiasXplorer-Mini against its natural-language specification.

Conventions of the embedding:
- Python floats are modelled as real numbers (`ℝ`) where the code computes
  statistics (skewness, transformed cell values), and as rationals (`ℚ`)
  where the code only compares and divides finite decimal quantities
  (proportions, thresholds), keeping those parts decidable.
- A pandas cell is `Cell`: a numeric value, a non-coercible value (a string
  that `pd.to_numeric(..., errors='coerce')` turns into NaN), or a missing
  value (NaN).
- Fallible code is embedded with `Except`; the `raise ValueError` of
  `compute_skewness` (the spec's `InsufficientDataError`) is the
  `insufficientData` constructor.
- Library collaborators (scikit-learn / imbalanced-learn fits and samplers)
  are not repository code; they enter as explicit function parameters, and
  the properties the spec ascribes to them are hypotheses of the theorems.
-/

namespace BiasXplorer

/-- A cell of a pandas column as seen by the skewness pipeline of
`backend/utils/data_stats.py`: numeric, coercion-failing, or missing. -/
inductive Cell where
  | num (x : ℝ)
  | nonnum
  | missing

/-- Embeds `pd.to_numeric(series, errors='coerce')` followed by `dropna` at
the level of one cell: numeric cells survive, everything else becomes NaN
and is dropped. -/
def Cell.toNumeric : Cell → Option ℝ
  | .num x => some x
  | .nonnum => none
  | .missing => none

/-- The sequence of usable numeric values of a column:
`pd.to_numeric(series, errors='coerce').dropna()` in `compute_skewness`. -/
def cleanValues (cells : List Cell) : List ℝ :=
  cells.filterMap Cell.toNumeric

/-- Arithmetic mean of a list of reals (denominator `n`, as numpy/scipy use). -/
noncomputable def listMean (xs : List ℝ) : ℝ :=
  xs.sum / (xs.length : ℝ)

/-- Central moment of order `k` with denominator `n`, as computed by
`scipy.stats.skew` (which uses the plain mean of `(x - mean)^k`). -/
noncomputable def centralMoment (k : ℕ) (xs : List ℝ) : ℝ :=
  ((xs.map (fun x => (x - listMean xs) ^ k)).sum) / (xs.length : ℝ)

/-- `scipy.stats.skew` with its default `bias=True`: the plain Fisher-Pearson
coefficient `g1 = m3 / m2^(3/2)`, with no sample-size bias adjustment.
`m2^(3/2)` is written `(sqrt m2)^3` (the two agree since `m2 ≥ 0`). -/
noncomputable def scipySkew (xs : List ℝ) : ℝ :=
  centralMoment 3 xs / Real.sqrt (centralMoment 2 xs) ^ 3

/-- The error raised by `compute_skewness` when fewer than 2 usable values
remain; the spec calls it `InsufficientDataError` (the code raises
`ValueError`). -/
inductive DataError where
  | insufficientData
deriving DecidableEq

/-- `compute_skewness` of `backend/utils/data_stats.py`: coerce to numeric,
drop NaNs, return `none` on an empty result, fail below 2 values, and
otherwise return `scipy.stats.skew` of the clean values. -/
noncomputable def computeSkewness (cells : List Cell) : Except DataError (Option ℝ) :=
  if (cleanValues cells).length = 0 then .ok none
  else if (cleanValues cells).length < 2 then .error .insufficientData
  else .ok (some (scipySkew (cleanValues cells)))

/-- Modelled from the spec: the bias-adjusted (sample-size-corrected, G1)
Fisher-Pearson sample skewness, i.e. the third standardized moment with the
adjustment factor `sqrt (n * (n-1)) / (n-2)` applied. The repository has no
such computation; this definition exists to compare the spec's words with
what `compute_skewness` actually returns. -/
noncomputable def specSkewG1 (xs : List ℝ) : ℝ :=
  let n : ℝ := (xs.length : ℝ)
  scipySkew xs * (Real.sqrt (n * (n - 1)) / (n - 2))

/-- `ContinuousTransformer.get_transformation_method` of
`backend/utils/transformers/continuous.py`, with the source's exact
condition chain and result strings. -/
noncomputable def getTransformationMethod (skewValue : ℝ) : String :=
  if |skewValue| ≤ 0.5 then "None (already symmetric)"
  else if skewValue > 0.5 ∧ skewValue ≤ 1 then "Square Root"
  else if skewValue > 1 ∧ skewValue ≤ 2 then "Log Transformation"
  else if skewValue < -0.5 ∧ skewValue ≥ -1 then "Squared Power"
  else if skewValue < -1 ∧ skewValue ≥ -2 then "Cubed Power"
  else if (skewValue > 2 ∧ skewValue ≤ 3) ∨ (skewValue < -2 ∧ skewValue ≥ -3) then "Yeo-Johnson"
  else "Quantile Transformer"

/-! ## Skew-correction service

`SkewnessCorrectionService` works on a DataFrame column by column; we embed
the frame column-oriented (`STable`), since every operation of the service
reads and writes whole columns. Python's in-place mutation is threaded
explicitly: an embedded operation returns the state of the DataFrame object
it was handed, as it is after the call. -/

/-- A DataFrame as the skew pipeline sees it: named columns of cells. -/
abbrev STable := List (String × List Cell)

/-- Column access `df[col]`, `none` when the column is absent. -/
def getCol (df : STable) (c : String) : Option (List Cell) :=
  df.lookup c

/-- Column access where the column is known to exist (junk `[]` otherwise). -/
def getColD (df : STable) (c : String) : List Cell :=
  (getCol df c).getD []

/-- Column assignment `df[col] = v` for an existing column: replaces the
values of every entry named `c` and touches no other column. (The creating
assignment of pandas is never reached by the service: it only assigns to a
column it has already read.) -/
def setCol : STable → String → List Cell → STable
  | [], _, _ => []
  | p :: df, c, v => (if p.1 = c then (p.1, v) else p) :: setCol df c v

/-- An elementwise numpy operation on a column (`np.sqrt(series)` and
friends): numeric cells go through the partial operation — `none` is the
NaN numpy produces on an out-of-domain input, which the next
`pd.to_numeric(...).dropna()` removes — and missing cells stay missing.
(On a non-coercible cell numpy raises instead; the service turns any such
exception into a per-column error entry without touching sibling columns.) -/
def mapNumCells (f : ℝ → Option ℝ) (cells : List Cell) : List Cell :=
  cells.map fun c =>
    match c with
    | .num x =>
      match f x with
      | some y => .num y
      | none => .missing
    | other => other

/-- `np.sqrt` on one float: a real result for nonnegative inputs, NaN (a
dropped cell) below 0. -/
noncomputable def npSqrt (x : ℝ) : Option ℝ :=
  if 0 ≤ x then some (Real.sqrt x) else none

/-- `np.log1p` on one float: a real result when `1 + x > 0`, NaN (a dropped
cell) below -1. Exactly at `x = -1` numpy yields `-inf`; the embedding also
drops that cell — the one simplification here, and no theorem below
exercises the log band at that point. -/
noncomputable def npLog1p (x : ℝ) : Option ℝ :=
  if -1 < x then some (Real.log (1 + x)) else none

/-- `ContinuousTransformer.apply_transformation`: dispatch over the same
skew bands as `get_transformation_method` and assign the transformed values
back to `df[col]` only. The Yeo-Johnson and quantile transforms are
scikit-learn fits applied to the single column `df[[col]]`; they enter as
the function parameters `yeoF` and `quantF`. -/
noncomputable def applyTransformation (yeoF quantF : List Cell → List Cell)
    (df : STable) (col : String) (s : ℝ) : STable :=
  if |s| ≤ 0.5 then df
  else if s > 0.5 ∧ s ≤ 1 then setCol df col (mapNumCells npSqrt (getColD df col))
  else if s > 1 ∧ s ≤ 2 then setCol df col (mapNumCells npLog1p (getColD df col))
  else if s < -0.5 ∧ s ≥ -1 then setCol df col (mapNumCells (fun x => some (x ^ 2)) (getColD df col))
  else if s < -1 ∧ s ≥ -2 then setCol df col (mapNumCells (fun x => some (x ^ 3)) (getColD df col))
  else if (s > 2 ∧ s ≤ 3) ∨ (s < -2 ∧ s ≥ -3) then setCol df col (yeoF (getColD df col))
  else setCol df col (quantF (getColD df col))

/-- The per-column result dictionary built by
`SkewnessCorrectionService.correct_column`. -/
structure SkewEntry where
  errorMsg : Option String
  originalSkewness : Option ℝ
  newSkewness : Option ℝ
  method : Option String

/-- The transform-and-recompute path of `correct_column` (the branch taken
when |s| > 0.5): apply the transformation in place, then recompute the
skewness of the transformed column; a `ValueError` there is caught by the
surrounding `except` and recorded as an error entry (with the frame already
transformed). -/
noncomputable def correctColumnTransform (yeoF quantF : List Cell → List Cell)
    (df : STable) (column : String) (s : ℝ) : STable × SkewEntry :=
  match computeSkewness (getColD (applyTransformation yeoF quantF df column s) column) with
  | .ok v => (applyTransformation yeoF quantF df column s,
      ⟨none, some s, v, some (getTransformationMethod s)⟩)
  | .error _ => (applyTransformation yeoF quantF df column s,
      ⟨some "insufficient data", none, none, none⟩)

/-- The `try` body of `correct_column` once the column was read: compute the
original skewness, dispatch on the |s| ≤ 0.5 guard, transform in place and
recompute. The `except` of the source catches the insufficient-data
`ValueError` and records it as an error entry. -/
noncomputable def correctColumnBody (yeoF quantF : List Cell → List Cell)
    (df : STable) (column : String) (cells : List Cell) : STable × SkewEntry :=
  match computeSkewness cells with
  | .error _ => (df, ⟨some "insufficient data", none, none, none⟩)
  | .ok none => (df, ⟨some "Unable to compute skewness", none, none, none⟩)
  | .ok (some s) =>
    if |s| ≤ 0.5 then
      (df, ⟨none, some s, some s, some (getTransformationMethod s)⟩)
    else
      correctColumnTransform yeoF quantF df column s

/-- `SkewnessCorrectionService.correct_column`: the docstring of the source
says the DataFrame "will be modified in place", and the body indeed assigns
transformed values into the frame it was handed; the first component of the
result is that frame's state after the call. -/
noncomputable def correctColumn (yeoF quantF : List Cell → List Cell)
    (df : STable) (column : String) : STable × SkewEntry :=
  match getCol df column with
  | none => (df, ⟨some "Column not found", none, none, none⟩)
  | some cells => correctColumnBody yeoF quantF df column cells

/-- Assignment into the Python result dict `transformations[col] = entry`:
overwrite the (unique) existing key, otherwise append in insertion order. -/
def dinsert (k : String) (v : SkewEntry) : List (String × SkewEntry) →
    List (String × SkewEntry)
  | [] => [(k, v)]
  | p :: l => if p.1 = k then (p.1, v) :: l else p :: dinsert k v l

/-- The loop of `correct_multiple_columns` over the requested columns,
threading the working copy and the result dict. -/
noncomputable def correctColumnsLoop (yeoF quantF : List Cell → List Cell)
    (state : STable × List (String × SkewEntry)) :
    List String → STable × List (String × SkewEntry)
  | [] => state
  | c :: rest =>
    let r := correctColumn yeoF quantF state.1 c
    correctColumnsLoop yeoF quantF (r.1, dinsert c r.2 state.2) rest

/-- `SkewnessCorrectionService.correct_multiple_columns`: makes a (deep)
copy of the input frame, runs `correct_column` on the copy for each
requested column, and returns the copy plus the per-column results. The
first component is the caller's own frame after the call: the source body
reads `df` only through `df.copy()`, so that frame is returned unchanged. -/
noncomputable def correctMultipleColumns (yeoF quantF : List Cell → List Cell)
    (df : STable) (columns : List String) :
    STable × STable × List (String × SkewEntry) :=
  let res := correctColumnsLoop yeoF quantF (df, []) columns
  (df, res.1, res.2)

/-! ## Imbalance detection and correction

The bias services are row-oriented: a `DTable` is a list of rows, a row an
association list from column name to cell rendered as a string (the
services read the target column through `.astype(str)`). -/

abbrev Row := List (String × String)
abbrev DTable := List Row

/-- The target value of one row, as the string pandas `astype(str)` yields
(`"nan"` for a missing cell). -/
def getCell (r : Row) (c : String) : String :=
  (r.lookup c).getD "nan"

/-- `df[target_col].astype(str)` as a list of class labels. -/
def targetVals (df : DTable) (tcol : String) : List String :=
  df.map (fun r => getCell r tcol)

/-- `y.nunique(dropna=True)` on an already-stringified series. -/
def nuniqueL (ys : List String) : ℕ :=
  ys.dedup.length

/-- `y.value_counts()` as class/count pairs (first-occurrence order; the
source's sort by descending count is only used to read off the majority
count, embedded below as the maximum). -/
def classCounts (ys : List String) : List (String × ℕ) :=
  ys.dedup.map (fun v => (v, ys.count v))

/-- `value_counts.sort_values(ascending=False).iloc[0]`: the majority class
count (junk `0` on an empty series, which the callers guard against). -/
def majorityCount (ys : List String) : ℕ :=
  (classCounts ys).foldl (fun m p => max m p.2) 0

/-- `value_counts.min()`: the minority class count (junk `0` on an empty
series, which the callers guard against). -/
def minorityCount (ys : List String) : ℕ :=
  match (classCounts ys).map Prod.snd with
  | [] => 0
  | k :: ks => ks.foldl min k

/-- The sampling strategy handed to the imbalanced-learn samplers: the
string `'auto'`, a scalar threshold (binary targets), or an explicit
per-class target mapping. -/
inductive Strategy where
  | auto
  | scalar (t : ℚ)
  | perClass (targets : List (String × ℕ))
deriving DecidableEq

/-- The raw threshold value of the request before `float(threshold)`:
either a numeric value or something `float()` raises on. -/
inductive RawThr where
  | num (q : ℚ)
  | nonnum
deriving DecidableEq

/-- `float(threshold)`: yields the number or raises. -/
def floatCoerce : RawThr → Except Unit ℚ
  | .num q => .ok q
  | .nonnum => .error ()

/-- The multi-class oversample/smote target mapping of `apply_correction`:
for every class below the majority, `target = int(count + (majority -
count) * thr)` (truncation = floor, the value being nonnegative), kept only
when `target > count`. -/
def oversampleDict (ys : List String) (t : ℚ) : List (String × ℕ) :=
  let m := majorityCount ys
  (classCounts ys).filterMap fun p =>
    if p.2 < m then
      let target := (⌊(p.2 : ℚ) + ((m : ℚ) - (p.2 : ℚ)) * t⌋).toNat
      if p.2 < target then some (p.1, target) else none
    else none

/-- The multi-class undersample target mapping of `apply_correction`:
`target = int(minority / thr)` for every class, kept only when the class
count exceeds the target. -/
def undersampleDict (ys : List String) (t : ℚ) : List (String × ℕ) :=
  let target := (⌊(minorityCount ys : ℚ) / t⌋).toNat
  (classCounts ys).filterMap fun p =>
    if target < p.2 then some (p.1, target) else none

/-- The `try` body of the sampling-strategy derivation in
`BiasCorrectionService.apply_correction`, as a fallible computation: the
modelled raise site is `float(threshold)`. Note the source keeps `'auto'`
when a computed per-class dict is empty (`if sampling_dict:`). -/
def deriveStrategyE (ys : List String) (method : String) (thr : RawThr) :
    Except Unit Strategy :=
  match floatCoerce thr with
  | .error e => .error e
  | .ok t =>
    .ok <|
      if 0 < t ∧ t ≤ 1 then
        if nuniqueL ys = 2 then .scalar t
        else if 2 < nuniqueL ys ∧ (method = "oversample" ∨ method = "smote") then
          let d := oversampleDict ys t
          if d = [] then .auto else .perClass d
        else if 2 < nuniqueL ys ∧ method = "undersample" then
          let d := undersampleDict ys t
          if d = [] then .auto else .perClass d
        else .auto
      else .auto

/-- The strategy `apply_correction` ends up using: `'auto'` without a
threshold, and the derived strategy otherwise, any exception during the
derivation being caught, logged and swallowed (the strategy variable then
still holds its initial `'auto'`). -/
def chooseStrategy (ys : List String) (method : String) (thr : Option RawThr) :
    Strategy :=
  match thr with
  | none => .auto
  | some r =>
    match deriveStrategyE ys method r with
    | .ok s => s
    | .error _ => .auto

/-- `CategoricalTransformer.compute_class_weights`: sorted distinct classes
and scikit-learn's balanced weights `n_samples / (n_classes * count c)`. -/
def computeClassWeights (ys : List String) : List (String × ℚ) :=
  let classes := (ys.dedup).mergeSort (fun a b => decide (a ≤ b))
  classes.map fun c =>
    (c, (ys.length : ℚ) / ((classes.length : ℚ) * (ys.count c : ℚ)))

/-- The metadata dict returned by `apply_correction` (the source stringifies
the strategy for display; we keep the value itself). -/
structure CorrectionMeta where
  method : String
  samplingStrategy : Strategy
  classWeights : Option (List (String × ℚ))
deriving DecidableEq

/-- `CategoricalTransformer.oversample` after the library call: the sampler
returns the resampled feature matrix whose `__row_id__` column holds, for
every output row, the index of the input row it came from; the source then
rebuilds the result as `df_reset.iloc[row_ids]`, so the output is exactly
the input rows selected by `rowIds`. -/
def oversample (df : DTable) (rowIds : List ℕ) : DTable :=
  rowIds.filterMap df.get?

/-- `CategoricalTransformer.undersample`: identical reconstruction from the
row ids the under-sampler keeps. -/
def undersample (df : DTable) (rowIds : List ℕ) : DTable :=
  rowIds.filterMap df.get?

/-- `BiasCorrectionService.apply_correction`. The imbalanced-learn sampler
calls are the parameters `oversLib`/`undersLib` (returning the `__row_id__`
selection) and `smoteLib` (returning a synthesized frame). The first
component is the caller's frame after the call: the source body only reads
`df` (through `copy`, `reset_index`, `drop`, `astype`, `value_counts`), so
that frame is unchanged. Dispatch on an unknown method raises `ValueError`. -/
def applyCorrection (oversLib undersLib : DTable → String → Strategy → List ℕ)
    (smoteLib : DTable → String → Strategy → Option (List String) → DTable)
    (df : DTable) (targetCol method : String) (threshold : Option RawThr)
    (categoricalColumns : Option (List String)) :
    DTable × Except String (DTable × CorrectionMeta) :=
  let ys := targetVals df targetCol
  let strat := chooseStrategy ys method threshold
  let meta : CorrectionMeta := ⟨method, strat, none⟩
  (df,
    if method = "reweight" then
      .ok (df, { meta with classWeights := some (computeClassWeights ys) })
    else if method = "oversample" then
      .ok (oversample df (oversLib df targetCol strat), meta)
    else if method = "undersample" then
      .ok (undersample df (undersLib df targetCol strat), meta)
    else if method = "smote" then
      .ok (smoteLib df targetCol strat categoricalColumns, meta)
    else .error ("Unsupported method: " ++ method))

/-! ## Imbalance detection (`BiasDetectionService.detect_imbalance`)

The detection works per column on the non-missing values; proportions are
rounded to 6 decimal places (`float(round(v, 6))`) before the ratio is
taken. Rounding is embedded exactly over `ℚ` with Python's round-half-even;
the double-precision representation error of the source (absent here) is
many orders of magnitude below the 6-decimal grid and below the distance of
every concrete input used here to a severity boundary. -/

/-- Python `round` to an integer: nearest, ties to even. -/
def roundHalfEven (x : ℚ) : ℤ :=
  let f := ⌊x⌋
  let r := x - (f : ℚ)
  if r < 1 / 2 then f
  else if 1 / 2 < r then f + 1
  else if 2 ∣ f then f else f + 1

/-- Python `round(v, 6)`. -/
def round6 (q : ℚ) : ℚ :=
  (roundHalfEven (q * 1000000) : ℚ) / 1000000

/-- `series.dropna()` for a detection column. -/
def colValues (cells : List (Option String)) : List String :=
  cells.filterMap id

/-- `series.value_counts(normalize=True)` rounded to 6 decimals, i.e. the
`dist_str` dictionary of the source (values only matter through their
multiset here, as the source takes `min`/`max` over them). -/
def distStr (cells : List (Option String)) : List (String × ℚ) :=
  let vals := colValues cells
  vals.dedup.map (fun v => (v, round6 ((vals.count v : ℚ) / (vals.length : ℚ))))

/-- Maximum of a list of rationals (junk `0` on `[]`). -/
def listMaxQ : List ℚ → ℚ
  | [] => 0
  | x :: xs => xs.foldl max x

/-- Minimum of a list of rationals (junk `0` on `[]`). -/
def listMinQ : List ℚ → ℚ
  | [] => 0
  | x :: xs => xs.foldl min x

/-- The imbalance ratio of `detect_imbalance`: `0.0` for a single observed
class, otherwise minority proportion over majority proportion (both already
rounded), guarded against a zero majority. -/
def imbalanceRatio (cells : List (Option String)) : ℚ :=
  let d := distStr cells
  if d.length = 1 then 0
  else
    let majority := listMaxQ (d.map Prod.snd)
    let minority := listMinQ (d.map Prod.snd)
    if 0 < majority then minority / majority else 0

/-- The severity label of `detect_imbalance` for one column present in the
frame: `N/A` with no data, otherwise the ratio bands of the source. -/
def imbalanceSeverity (cells : List (Option String)) : String :=
  if colValues cells = [] then "N/A"
  else
    let ratio := imbalanceRatio cells
    if ratio ≥ 1 / 2 then "Low"
    else if ratio ≥ 1 / 5 then "Moderate"
    else "Severe"

/-- Modelled from the spec: the imbalance ratio over the exact (unrounded)
proportions `count(value) / count(non-missing)`, as the claim's words
"ratio = min(proportion)/max(proportion) over the distinct values'
proportions" read; kept to compare against the source's rounded ratio. -/
def specExactRatio (cells : List (Option String)) : ℚ :=
  let vals := colValues cells
  let d := vals.dedup.map (fun v => ((vals.count v : ℚ) / (vals.length : ℚ)))
  if vals.dedup.length = 1 then 0
  else listMinQ d / listMaxQ d

/-- The skewness a caller can read back for a column: the value when
`compute_skewness` returns one, `none` on the empty-column and
insufficient-data outcomes (which the service reports as error entries). -/
noncomputable def skewReport (cells : List Cell) : Option ℝ :=
  match computeSkewness cells with
  | .ok (some s) => some s
  | .ok none => none
  | .error _ => none

/-! ## Theorems -/

theorem gtm_none_iff (s : ℝ) :
    getTransformationMethod s = "None (already symmetric)" ↔ |s| ≤ 0.5 := by
  unfold getTransformationMethod
  split_ifs with h1 h2 h3 h4 h5 h6
  · exact iff_of_true rfl h1
  · exact iff_of_false (by decide) h1
  · exact iff_of_false (by decide) h1
  · exact iff_of_false (by decide) h1
  · exact iff_of_false (by decide) h1
  · exact iff_of_false (by decide) h1
  · exact iff_of_false (by decide) h1

theorem gtm_sqrt_iff (s : ℝ) :
    getTransformationMethod s = "Square Root" ↔ 0.5 < s ∧ s ≤ 1 := by
  unfold getTransformationMethod
  split_ifs with h1 h2 h3 h4 h5 h6
  · exact iff_of_false (by decide) (fun h => by rw [abs_le] at h1; linarith [h.1])
  · exact iff_of_true rfl ⟨h2.1, h2.2⟩
  · exact iff_of_false (by decide) h2
  · exact iff_of_false (by decide) h2
  · exact iff_of_false (by decide) h2
  · exact iff_of_false (by decide) h2
  · exact iff_of_false (by decide) h2

theorem gtm_log_iff (s : ℝ) :
    getTransformationMethod s = "Log Transformation" ↔ 1 < s ∧ s ≤ 2 := by
  unfold getTransformationMethod
  split_ifs with h1 h2 h3 h4 h5 h6
  · exact iff_of_false (by decide) (fun h => by rw [abs_le] at h1; linarith [h.1])
  · exact iff_of_false (by decide) (fun h => by linarith [h2.2, h.1])
  · exact iff_of_true rfl ⟨h3.1, h3.2⟩
  · exact iff_of_false (by decide) h3
  · exact iff_of_false (by decide) h3
  · exact iff_of_false (by decide) h3
  · exact iff_of_false (by decide) h3

theorem gtm_square_iff (s : ℝ) :
    getTransformationMethod s = "Squared Power" ↔ -1 ≤ s ∧ s < -0.5 := by
  unfold getTransformationMethod
  split_ifs with h1 h2 h3 h4 h5 h6
  · exact iff_of_false (by decide) (fun h => by rw [abs_le] at h1; linarith [h.2])
  · exact iff_of_false (by decide) (fun h => by linarith [h2.1, h.2])
  · exact iff_of_false (by decide) (fun h => by linarith [h3.1, h.2])
  · exact iff_of_true rfl ⟨h4.2, h4.1⟩
  · exact iff_of_false (by decide) (fun h => h4 ⟨h.2, h.1⟩)
  · exact iff_of_false (by decide) (fun h => h4 ⟨h.2, h.1⟩)
  · exact iff_of_false (by decide) (fun h => h4 ⟨h.2, h.1⟩)

theorem gtm_cube_iff (s : ℝ) :
    getTransformationMethod s = "Cubed Power" ↔ -2 ≤ s ∧ s < -1 := by
  unfold getTransformationMethod
  split_ifs with h1 h2 h3 h4 h5 h6
  · exact iff_of_false (by decide) (fun h => by rw [abs_le] at h1; linarith [h.2])
  · exact iff_of_false (by decide) (fun h => by linarith [h2.1, h.2])
  · exact iff_of_false (by decide) (fun h => by linarith [h3.1, h.2])
  · exact iff_of_false (by decide) (fun h => by linarith [h4.2, h.2])
  · exact iff_of_true rfl ⟨h5.2, h5.1⟩
  · exact iff_of_false (by decide) (fun h => h5 ⟨h.2, h.1⟩)
  · exact iff_of_false (by decide) (fun h => h5 ⟨h.2, h.1⟩)

theorem gtm_yeo_iff (s : ℝ) :
    getTransformationMethod s = "Yeo-Johnson" ↔ (2 < s ∧ s ≤ 3) ∨ (-3 ≤ s ∧ s < -2) := by
  unfold getTransformationMethod
  split_ifs with h1 h2 h3 h4 h5 h6
  · refine iff_of_false (by decide) ?_
    rintro (h | h) <;> (rw [abs_le] at h1; linarith [h.1, h.2, h1.1, h1.2])
  · refine iff_of_false (by decide) ?_
    rintro (h | h) <;> linarith [h2.1, h2.2, h.1, h.2]
  · refine iff_of_false (by decide) ?_
    rintro (h | h) <;> linarith [h3.1, h3.2, h.1, h.2]
  · refine iff_of_false (by decide) ?_
    rintro (h | h) <;> linarith [h4.1, h4.2, h.1, h.2]
  · refine iff_of_false (by decide) ?_
    rintro (h | h) <;> linarith [h5.1, h5.2, h.1, h.2]
  · refine iff_of_true rfl ?_
    rcases h6 with h | h
    · exact Or.inl ⟨h.1, h.2⟩
    · exact Or.inr ⟨h.2, h.1⟩
  · refine iff_of_false (by decide) ?_
    rintro (h | h)
    · exact h6 (Or.inl ⟨h.1, h.2⟩)
    · exact h6 (Or.inr ⟨h.2, h.1⟩)

theorem gtm_quantile_iff (s : ℝ) :
    getTransformationMethod s = "Quantile Transformer" ↔ 3 < s ∨ s < -3 := by
  unfold getTransformationMethod
  split_ifs with h1 h2 h3 h4 h5 h6
  · refine iff_of_false (by decide) ?_
    rintro (h | h) <;> (rw [abs_le] at h1; linarith [h1.1, h1.2])
  · exact iff_of_false (by decide) (by rintro (h | h) <;> linarith [h2.1, h2.2])
  · exact iff_of_false (by decide) (by rintro (h | h) <;> linarith [h3.1, h3.2])
  · exact iff_of_false (by decide) (by rintro (h | h) <;> linarith [h4.1, h4.2])
  · exact iff_of_false (by decide) (by rintro (h | h) <;> linarith [h5.1, h5.2])
  · refine iff_of_false (by decide) ?_
    rcases h6 with h | h <;> (rintro (hc | hc) <;> linarith [h.1, h.2])
  · refine iff_of_true rfl ?_
    rw [not_le, lt_abs] at h1
    push_neg at h2 h3 h4 h5 h6
    rcases h1 with h1 | h1
    · exact Or.inl (by linarith [h2 h1, h3 (by linarith [h2 h1]), h6.1 (by linarith [h3 (by linarith [h2 h1])])])
    · have hs1 : s < -0.5 := by linarith
      have hs2 : s < -1 := h4 hs1
      have hs3 : s < -2 := h5 hs2
      exact Or.inr (by linarith [h6.2 hs3])

/-- Claim C2: the skew-correction engine selects the method exactly by the
banded table — none iff |s| ≤ 0.5, square root iff 0.5 < s ≤ 1, log iff
1 < s ≤ 2, squared power iff -1 ≤ s < -0.5, cubed power iff -2 ≤ s < -1,
Yeo-Johnson iff 2 < s ≤ 3 or -3 ≤ s < -2, quantile transform iff |s| > 3;
in particular s = 0.5 gives none, s = 3 gives Yeo-Johnson and s = 3.00001
gives the quantile transform. -/
theorem skew_method_selection_bands (s : ℝ) :
    (getTransformationMethod s = "None (already symmetric)" ↔ |s| ≤ 0.5)
    ∧ (getTransformationMethod s = "Square Root" ↔ 0.5 < s ∧ s ≤ 1)
    ∧ (getTransformationMethod s = "Log Transformation" ↔ 1 < s ∧ s ≤ 2)
    ∧ (getTransformationMethod s = "Squared Power" ↔ -1 ≤ s ∧ s < -0.5)
    ∧ (getTransformationMethod s = "Cubed Power" ↔ -2 ≤ s ∧ s < -1)
    ∧ (getTransformationMethod s = "Yeo-Johnson" ↔ (2 < s ∧ s ≤ 3) ∨ (-3 ≤ s ∧ s < -2))
    ∧ (getTransformationMethod s = "Quantile Transformer" ↔ 3 < s ∨ s < -3)
    ∧ getTransformationMethod (0.5 : ℝ) = "None (already symmetric)"
    ∧ getTransformationMethod (3 : ℝ) = "Yeo-Johnson"
    ∧ getTransformationMethod (3.00001 : ℝ) = "Quantile Transformer" :=
  ⟨gtm_none_iff s, gtm_sqrt_iff s, gtm_log_iff s, gtm_square_iff s, gtm_cube_iff s,
    gtm_yeo_iff s, gtm_quantile_iff s,
    (gtm_none_iff 0.5).mpr (by rw [abs_le]; norm_num),
    (gtm_yeo_iff 3).mpr (Or.inl (by norm_num)),
    (gtm_quantile_iff 3.00001).mpr (Or.inl (by norm_num))⟩

/-- Claim C8: `analyze_skewness` coerces to numeric, drops missing values,
returns null on an empty remainder, fails with the insufficient-data error
exactly when one value remains, and returns a number from two values up. -/
theorem skewness_arity_contract (cells : List Cell) :
    ((cleanValues cells).length = 0 → computeSkewness cells = .ok none)
    ∧ ((cleanValues cells).length = 1 →
        computeSkewness cells = .error .insufficientData)
    ∧ (2 ≤ (cleanValues cells).length →
        computeSkewness cells = .ok (some (scipySkew (cleanValues cells))))
    ∧ (computeSkewness cells = .error .insufficientData ↔
        (cleanValues cells).length = 1) := by
  unfold computeSkewness
  split_ifs with h1 h2
  · exact ⟨fun _ => rfl, fun h => by omega, fun h => by omega,
      iff_of_false (by simp) (by omega)⟩
  · exact ⟨fun h => by omega, fun _ => rfl, fun h => by omega,
      iff_of_true rfl (by omega)⟩
  · exact ⟨fun h => by omega, fun h => by omega, fun _ => rfl,
      iff_of_false (by simp) (by omega)⟩

/-- Witness for C8 at concrete inputs: a single numeric cell fails with the
insufficient-data error, an all-non-coercible column yields null, and two
numeric cells yield a number. -/
theorem skewness_arity_contract_witness :
    (cleanValues [Cell.num 1]).length = 1
    ∧ computeSkewness [Cell.num 1] = .error .insufficientData
    ∧ (cleanValues [Cell.nonnum, Cell.missing]).length = 0
    ∧ computeSkewness [Cell.nonnum, Cell.missing] = .ok none
    ∧ 2 ≤ (cleanValues [Cell.num 0, Cell.num 1]).length
    ∧ computeSkewness [Cell.num 0, Cell.num 1] =
        .ok (some (scipySkew (cleanValues [Cell.num 0, Cell.num 1]))) :=
  ⟨rfl, (skewness_arity_contract [Cell.num 1]).2.1 rfl,
    rfl, (skewness_arity_contract [Cell.nonnum, Cell.missing]).1 rfl,
    le_refl 2, (skewness_arity_contract [Cell.num 0, Cell.num 1]).2.2.1 (le_refl 2)⟩

theorem distStr_length (cells : List (Option String)) :
    (distStr cells).length = (colValues cells).dedup.length := by
  simp [distStr]

/-- Claim C1 (amended): for a column with at least one non-missing value the
severity is assigned from the imbalance ratio by the bands Low iff
ratio ≥ 0.5, Moderate iff 0.2 ≤ ratio < 0.5, Severe iff ratio < 0.2, and a
single observed class gives ratio 0 and Severe — where the ratio is the
minority/majority quotient of the proportions as the code stores them,
rounded to 6 decimal places. -/
theorem imbalance_severity_bands (cells : List (Option String))
    (h : colValues cells ≠ []) :
    (imbalanceSeverity cells = "Low" ↔ 1 / 2 ≤ imbalanceRatio cells)
    ∧ (imbalanceSeverity cells = "Moderate" ↔
        1 / 5 ≤ imbalanceRatio cells ∧ imbalanceRatio cells < 1 / 2)
    ∧ (imbalanceSeverity cells = "Severe" ↔ imbalanceRatio cells < 1 / 5)
    ∧ ((colValues cells).dedup.length = 1 →
        imbalanceRatio cells = 0 ∧ imbalanceSeverity cells = "Severe") := by
  have hr : ∀ q : ℚ, (colValues cells).dedup.length = 1 → imbalanceRatio cells = 0 := by
    intro _ h1
    unfold imbalanceRatio
    rw [if_pos (by rw [distStr_length]; exact h1)]
  simp only [imbalanceSeverity]
  rw [if_neg h]
  split_ifs with h1 h2
  · refine ⟨iff_of_true rfl h1, iff_of_false (by decide) (fun hc => by linarith [hc.2]),
      iff_of_false (by decide) (by linarith), fun hd => ?_⟩
    have h0 := hr 0 hd
    rw [h0] at h1
    norm_num at h1
  · refine ⟨iff_of_false (by decide) (by linarith), iff_of_true rfl ⟨h2, by linarith⟩,
      iff_of_false (by decide) (by linarith), fun hd => ?_⟩
    have h0 := hr 0 hd
    rw [h0] at h2
    norm_num at h2
  · refine ⟨iff_of_false (by decide) (by linarith), iff_of_false (by decide) (fun hc => by linarith [hc.1]),
      iff_of_true rfl (by linarith), fun hd => ⟨hr 0 hd, rfl⟩⟩

theorem distStr_AAB : distStr [some "A", some "A", some "B"] =
    [("A", 666667 / 1000000), ("B", 333333 / 1000000)] := by
  have h1 : colValues [some "A", some "A", some "B"] = ["A", "A", "B"] := by decide
  have h2 : (["A", "A", "B"] : List String).dedup = ["A", "B"] := by decide
  have hcA : List.count "A" ["A", "A", "B"] = 2 := by decide
  have hcB : List.count "B" ["A", "A", "B"] = 1 := by decide
  simp only [distStr, h1, h2, List.map_cons, List.map_nil, List.length_cons,
    List.length_nil, hcA, hcB]
  norm_num [round6, roundHalfEven]

theorem ratio_AAB : imbalanceRatio [some "A", some "A", some "B"] = 333333 / 666667 := by
  simp only [imbalanceRatio, distStr_AAB]
  norm_num [listMaxQ, listMinQ]

theorem distStr_ABB : distStr [some "A", some "B", some "B"] =
    [("A", 333333 / 1000000), ("B", 666667 / 1000000)] := by
  have h1 : colValues [some "A", some "B", some "B"] = ["A", "B", "B"] := by decide
  have h2 : (["A", "B", "B"] : List String).dedup = ["A", "B"] := by decide
  have hcA : List.count "A" ["A", "B", "B"] = 1 := by decide
  have hcB : List.count "B" ["A", "B", "B"] = 2 := by decide
  simp only [distStr, h1, h2, List.map_cons, List.map_nil, List.length_cons,
    List.length_nil, hcA, hcB]
  norm_num [round6, roundHalfEven]

theorem ratio_ABB : imbalanceRatio [some "A", some "B", some "B"] = 333333 / 666667 := by
  simp only [imbalanceRatio, distStr_ABB]
  norm_num [listMaxQ, listMinQ]

theorem severity_ABB : imbalanceSeverity [some "A", some "B", some "B"] = "Moderate" := by
  have h1 : colValues [some "A", some "B", some "B"] = ["A", "B", "B"] := by decide
  simp only [imbalanceSeverity, h1]
  rw [if_neg (by decide : ¬(["A", "B", "B"] : List String) = [])]
  simp only [ratio_ABB]
  norm_num

/-- Witness for C1 at a concrete column: two classes with counts 2 and 1
give ratio 333333/666667 (just below one half after rounding), and the
amended bands hold there. -/
theorem imbalance_severity_bands_witness :
    colValues [some "A", some "A", some "B"] ≠ []
    ∧ (imbalanceSeverity [some "A", some "A", some "B"] = "Moderate" ↔
        1 / 5 ≤ imbalanceRatio [some "A", some "A", some "B"]
        ∧ imbalanceRatio [some "A", some "A", some "B"] < 1 / 2)
    ∧ 1 / 5 ≤ imbalanceRatio [some "A", some "A", some "B"]
    ∧ imbalanceRatio [some "A", some "A", some "B"] < 1 / 2 :=
  ⟨by decide,
    (imbalance_severity_bands [some "A", some "A", some "B"] (by decide)).2.1,
    by rw [ratio_AAB]; norm_num, by rw [ratio_AAB]; norm_num⟩

/-- Counterexample to C1 as stated: on the column `[A, B, B]` the exact
proportions are 1/3 and 2/3, whose ratio is exactly 0.5, so the claim's
mapping demands `Low`; the code rounds the proportions to 6 decimals first,
gets ratio 333333/666667 < 0.5, and reports `Moderate`. -/
theorem imbalance_severity_rounding_cex :
    specExactRatio [some "A", some "B", some "B"] = 1 / 2
    ∧ imbalanceRatio [some "A", some "B", some "B"] < 1 / 2
    ∧ imbalanceSeverity [some "A", some "B", some "B"] = "Moderate"
    ∧ imbalanceSeverity [some "A", some "B", some "B"] ≠ "Low" := by
  refine ⟨?_, by rw [ratio_ABB]; norm_num, severity_ABB, by rw [severity_ABB]; decide⟩
  have h1 : colValues [some "A", some "B", some "B"] = ["A", "B", "B"] := by decide
  have h2 : (["A", "B", "B"] : List String).dedup = ["A", "B"] := by decide
  have hcA : List.count "A" ["A", "B", "B"] = 1 := by decide
  have hcB : List.count "B" ["A", "B", "B"] = 2 := by decide
  simp only [specExactRatio, h1, h2, List.map_cons, List.map_nil, List.length_cons,
    List.length_nil, hcA, hcB]
  norm_num [listMaxQ, listMinQ]

theorem mem_oversampleDict (ys : List String) (t : ℚ) (c : String) (m : ℕ) :
    (c, m) ∈ oversampleDict ys t ↔
      (c ∈ ys ∧ ys.count c < majorityCount ys
        ∧ m = (⌊(ys.count c : ℚ) + ((majorityCount ys : ℚ) - (ys.count c : ℚ)) * t⌋).toNat
        ∧ ys.count c < m) := by
  unfold oversampleDict classCounts
  rw [List.mem_filterMap]
  constructor
  · rintro ⟨p, hp, hf⟩
    rcases List.mem_map.mp hp with ⟨v, hv, rfl⟩
    simp only at hf
    split_ifs at hf with hlt htg
    · injection hf with h
      obtain ⟨h1, h2⟩ := Prod.mk.injEq .. ▸ h
      subst h1
      exact ⟨List.mem_dedup.mp hv, hlt, h2.symm ▸ rfl, h2 ▸ htg⟩
  · rintro ⟨hc, hlt, hm, hcm⟩
    refine ⟨(c, ys.count c), List.mem_map.mpr ⟨c, List.mem_dedup.mpr hc, rfl⟩, ?_⟩
    simp only
    rw [if_pos hlt, if_pos (hm ▸ hcm), hm]

theorem mem_undersampleDict (ys : List String) (t : ℚ) (c : String) (m : ℕ) :
    (c, m) ∈ undersampleDict ys t ↔
      (c ∈ ys ∧ m = (⌊(minorityCount ys : ℚ) / t⌋).toNat ∧ m < ys.count c) := by
  unfold undersampleDict classCounts
  rw [List.mem_filterMap]
  constructor
  · rintro ⟨p, hp, hf⟩
    rcases List.mem_map.mp hp with ⟨v, hv, rfl⟩
    simp only at hf
    split_ifs at hf with hlt
    · injection hf with h
      obtain ⟨h1, h2⟩ := Prod.mk.injEq .. ▸ h
      subst h1
      exact ⟨List.mem_dedup.mp hv, h2.symm ▸ rfl, h2 ▸ hlt⟩
  · rintro ⟨hc, hm, hcm⟩
    refine ⟨(c, ys.count c), List.mem_map.mpr ⟨c, List.mem_dedup.mpr hc, rfl⟩, ?_⟩
    simp only
    rw [if_pos (hm ▸ hcm), hm]

/-- Claim C3 (amended): with a numeric threshold t in (0,1], a binary target
gets the scalar strategy t; with more than 2 classes the strategy is the
per-class mapping of the claim's formulas whenever that mapping is
nonempty, and falls back to auto when no class qualifies (the source's
`if sampling_dict:` guard); with no threshold the strategy is auto. -/
theorem strategy_derivation_bands (ys : List String) (method : String) (t : ℚ)
    (h0 : 0 < t) (h1 : t ≤ 1) :
    (chooseStrategy ys method none = .auto)
    ∧ (nuniqueL ys = 2 → chooseStrategy ys method (some (.num t)) = .scalar t)
    ∧ (2 < nuniqueL ys → (method = "oversample" ∨ method = "smote") →
        chooseStrategy ys method (some (.num t)) =
          (if oversampleDict ys t = [] then .auto else .perClass (oversampleDict ys t))
        ∧ ∀ c m, (c, m) ∈ oversampleDict ys t ↔
            (c ∈ ys ∧ ys.count c < majorityCount ys
              ∧ m = (⌊(ys.count c : ℚ) + ((majorityCount ys : ℚ) - (ys.count c : ℚ)) * t⌋).toNat
              ∧ ys.count c < m))
    ∧ (2 < nuniqueL ys → method = "undersample" →
        chooseStrategy ys method (some (.num t)) =
          (if undersampleDict ys t = [] then .auto else .perClass (undersampleDict ys t))
        ∧ ∀ c m, (c, m) ∈ undersampleDict ys t ↔
            (c ∈ ys ∧ m = (⌊(minorityCount ys : ℚ) / t⌋).toNat ∧ m < ys.count c)) := by
  refine ⟨rfl, ?_, ?_, ?_⟩
  · intro hn
    simp only [chooseStrategy, deriveStrategyE, floatCoerce]
    rw [if_pos ⟨h0, h1⟩, if_pos hn]
  · intro hn hm
    refine ⟨?_, fun c m => mem_oversampleDict ys t c m⟩
    simp only [chooseStrategy, deriveStrategyE, floatCoerce]
    rw [if_pos ⟨h0, h1⟩, if_neg (by omega), if_pos ⟨hn, hm⟩]
  · intro hn hm
    refine ⟨?_, fun c m => mem_undersampleDict ys t c m⟩
    simp only [chooseStrategy, deriveStrategyE, floatCoerce]
    have hnot : ¬ (2 < nuniqueL ys ∧ (method = "oversample" ∨ method = "smote")) := by
      rintro ⟨-, hor | hor⟩ <;> simp [hm] at hor
    rw [if_pos ⟨h0, h1⟩, if_neg (by omega), if_neg hnot, if_pos ⟨hn, hm⟩]

/-- Witness for C3 at concrete inputs: a binary target with threshold 1/2
gets the scalar strategy, and a 3-class target `{A:3, B:1, C:1}` with
threshold 1 and method oversample gets the per-class mapping
`{B ↦ 3, C ↦ 3}` (as the membership characterization at those classes). -/
theorem strategy_derivation_bands_witness :
    (0 : ℚ) < 1 / 2 ∧ (1 : ℚ) / 2 ≤ 1
    ∧ chooseStrategy ["A", "B", "B"] "oversample" (some (.num (1 / 2))) = .scalar (1 / 2)
    ∧ (("B", 3) ∈ oversampleDict ["A", "A", "A", "B", "C"] 1 ↔
        ("B" ∈ ["A", "A", "A", "B", "C"]
          ∧ List.count "B" ["A", "A", "A", "B", "C"] < majorityCount ["A", "A", "A", "B", "C"]
          ∧ 3 = (⌊(List.count "B" ["A", "A", "A", "B", "C"] : ℚ)
              + ((majorityCount ["A", "A", "A", "B", "C"] : ℚ)
                - (List.count "B" ["A", "A", "A", "B", "C"] : ℚ)) * 1⌋).toNat
          ∧ List.count "B" ["A", "A", "A", "B", "C"] < 3)) :=
  ⟨by norm_num, by norm_num,
    (strategy_derivation_bands ["A", "B", "B"] "oversample" (1 / 2)
      (by norm_num) (by norm_num)).2.1 (by decide),
    ((strategy_derivation_bands ["A", "A", "A", "B", "C"] "oversample" 1
      (by norm_num) (by norm_num)).2.2.1 (by decide) (Or.inl rfl)).2 "B" 3⟩

/-- Counterexample to C3 as stated: on a 3-class target with counts
`{A:2, B:2, C:1}` and threshold 1/2, class C's target is
`int(1 + (2-1)*0.5) = 1`, which is not greater than its count, so the
formula's mapping is empty; the code then keeps strategy `auto` rather than
using the (empty) per-class mapping the claim describes. -/
theorem strategy_empty_mapping_cex :
    oversampleDict ["A", "A", "B", "B", "C"] (1 / 2) = []
    ∧ chooseStrategy ["A", "A", "B", "B", "C"] "oversample" (some (.num (1 / 2))) = .auto
    ∧ Strategy.auto ≠ Strategy.perClass [] := by
  have hd : oversampleDict ["A", "A", "B", "B", "C"] (1 / 2) = [] := by
    have hmj : majorityCount ["A", "A", "B", "B", "C"] = 2 := by decide
    rw [List.eq_nil_iff_forall_not_mem]
    rintro ⟨c, m⟩ hmem
    obtain ⟨hc, hlt, hm, hcm⟩ := (mem_oversampleDict _ _ c m).mp hmem
    rw [hmj] at hlt hm
    have hc1 : List.count c ["A", "A", "B", "B", "C"] = 1 := by
      rcases (by decide : ∀ x ∈ (["A", "A", "B", "B", "C"] : List String),
          List.count x ["A", "A", "B", "B", "C"] = 2 ∨
          List.count x ["A", "A", "B", "B", "C"] = 1) c hc with h | h
      · omega
      · exact h
    rw [show ((List.count c ["A", "A", "B", "B", "C"] : ℚ)) = 1 from by
      rw [hc1]; norm_num] at hm
    rw [hc1] at hcm
    norm_num at hm
    omega
  refine ⟨hd, ?_, by decide⟩
  have hgen : ∀ me, me = "oversample" ∨ me = "smote" →
      chooseStrategy ["A", "A", "B", "B", "C"] me (some (.num (1 / 2))) = .auto := by
    intro me hme
    simp only [chooseStrategy, deriveStrategyE, floatCoerce]
    rw [if_pos (by norm_num : (0 : ℚ) < 1 / 2 ∧ (1 : ℚ) / 2 ≤ 1),
      if_neg (by decide : ¬ nuniqueL ["A", "A", "B", "B", "C"] = 2),
      if_pos ⟨(by decide : 2 < nuniqueL ["A", "A", "B", "B", "C"]), hme⟩, if_pos hd]
  exact hgen "oversample" (Or.inl rfl)

theorem lookup_map_self (l : List String) (f : String → ℚ) (c : String)
    (hnd : l.Nodup) (hc : c ∈ l) :
    (l.map (fun x => (x, f x))).lookup c = some (f c) := by
  induction l with
  | nil => cases hc
  | cons a l ih =>
    rcases List.mem_cons.mp hc with rfl | hc2
    · simp [List.lookup]
    · have hne : (c == a) = false :=
        beq_eq_false_iff_ne.mpr (fun h => (List.nodup_cons.mp hnd).1 (h ▸ hc2))
      simp only [List.map_cons, List.lookup, hne]
      exact ih (List.nodup_cons.mp hnd).2 hc2

/-- Claim C7: the reweight method returns the table row-for-row unchanged
together with the balanced class weights
weight_c = n_samples / (n_classes * n_samples_c) for every class. -/
theorem reweight_unchanged_with_balanced_weights
    (oL uL : DTable → String → Strategy → List ℕ)
    (sL : DTable → String → Strategy → Option (List String) → DTable)
    (df : DTable) (tcol : String) (thr : Option RawThr) (cats : Option (List String)) :
    (applyCorrection oL uL sL df tcol "reweight" thr cats).2 =
      .ok (df, ⟨"reweight", chooseStrategy (targetVals df tcol) "reweight" thr,
        some (computeClassWeights (targetVals df tcol))⟩)
    ∧ ∀ c ∈ targetVals df tcol,
        (computeClassWeights (targetVals df tcol)).lookup c =
          some (((targetVals df tcol).length : ℚ) /
            ((nuniqueL (targetVals df tcol) : ℚ) * ((targetVals df tcol).count c : ℚ))) := by
  constructor
  · rfl
  · intro c hc
    have hperm := List.mergeSort_perm (targetVals df tcol).dedup
      (fun a b => decide (a ≤ b))
    have hnd : ((targetVals df tcol).dedup.mergeSort (fun a b => decide (a ≤ b))).Nodup :=
      hperm.symm.nodup (List.nodup_dedup _)
    have hmem : c ∈ (targetVals df tcol).dedup.mergeSort (fun a b => decide (a ≤ b)) :=
      hperm.symm.mem_iff.mp (List.mem_dedup.mpr hc)
    have hlen : ((targetVals df tcol).dedup.mergeSort (fun a b => decide (a ≤ b))).length =
        nuniqueL (targetVals df tcol) := hperm.length_eq
    unfold computeClassWeights
    rw [lookup_map_self _ _ c hnd hmem, hlen]

/-- Witness for C7 at a concrete table with classes {A:3, B:1}: class A gets
weight 4 / (2 * 3) = 2/3 and class B gets weight 4 / (2 * 1) = 2. -/
theorem reweight_weights_witness :
    "A" ∈ targetVals [[("t", "A")], [("t", "A")], [("t", "A")], [("t", "B")]] "t"
    ∧ (computeClassWeights
        (targetVals [[("t", "A")], [("t", "A")], [("t", "A")], [("t", "B")]] "t")).lookup "A" =
      some (((targetVals [[("t", "A")], [("t", "A")], [("t", "A")], [("t", "B")]] "t").length : ℚ) /
        ((nuniqueL (targetVals [[("t", "A")], [("t", "A")], [("t", "A")], [("t", "B")]] "t") : ℚ) *
          ((targetVals [[("t", "A")], [("t", "A")], [("t", "A")], [("t", "B")]] "t").count "A" : ℚ)))
    ∧ (((4 : ℚ)) / ((2 : ℚ) * (3 : ℚ)) = 2 / 3) :=
  ⟨by decide,
    (reweight_unchanged_with_balanced_weights (fun _ _ _ => []) (fun _ _ _ => [])
      (fun _ _ _ _ => []) [[("t", "A")], [("t", "A")], [("t", "A")], [("t", "B")]] "t"
      none none).2 "A" (by decide),
    by norm_num⟩

/-- Claim C10: an exception inside the sampling-strategy derivation is
swallowed: the call behaves exactly as if no threshold had been given
(strategy auto), and for every valid method the correction still returns a
result rather than propagating the error. -/
theorem strategy_error_swallowed
    (oL uL : DTable → String → Strategy → List ℕ)
    (sL : DTable → String → Strategy → Option (List String) → DTable)
    (df : DTable) (tcol method : String) (r : RawThr) (cats : Option (List String))
    (herr : ∃ e, deriveStrategyE (targetVals df tcol) method r = .error e) :
    applyCorrection oL uL sL df tcol method (some r) cats =
      applyCorrection oL uL sL df tcol method none cats
    ∧ (method = "oversample" ∨ method = "undersample" ∨ method = "smote" ∨ method = "reweight" →
        ∃ out, (applyCorrection oL uL sL df tcol method (some r) cats).2 = .ok out) := by
  obtain ⟨e, he⟩ := herr
  have hcs : chooseStrategy (targetVals df tcol) method (some r) = .auto := by
    simp [chooseStrategy, he]
  constructor
  · simp only [applyCorrection, chooseStrategy, he]
  · rintro (rfl | rfl | rfl | rfl) <;> exact ⟨_, rfl⟩

/-- Witness for C10: a non-coercible threshold makes `float(threshold)`
raise; on a concrete table the oversample call swallows the error, equals
the thresholdless call, and still returns a result. -/
theorem strategy_error_swallowed_witness :
    (∃ e, deriveStrategyE (targetVals [[("t", "A")], [("t", "B")]] "t")
        "oversample" .nonnum = .error e)
    ∧ applyCorrection (fun _ _ _ => []) (fun _ _ _ => []) (fun _ _ _ _ => [])
        [[("t", "A")], [("t", "B")]] "t" "oversample" (some .nonnum) none =
      applyCorrection (fun _ _ _ => []) (fun _ _ _ => []) (fun _ _ _ _ => [])
        [[("t", "A")], [("t", "B")]] "t" "oversample" none none
    ∧ ∃ out, (applyCorrection (fun _ _ _ => []) (fun _ _ _ => []) (fun _ _ _ _ => [])
        [[("t", "A")], [("t", "B")]] "t" "oversample" (some .nonnum) none).2 = .ok out := by
  have herr : ∃ e, deriveStrategyE (targetVals [[("t", "A")], [("t", "B")]] "t")
      "oversample" .nonnum = .error e := ⟨(), rfl⟩
  exact ⟨herr,
    (strategy_error_swallowed (fun _ _ _ => []) (fun _ _ _ => []) (fun _ _ _ _ => [])
      [[("t", "A")], [("t", "B")]] "t" "oversample" .nonnum none herr).1,
    (strategy_error_swallowed (fun _ _ _ => []) (fun _ _ _ => []) (fun _ _ _ _ => [])
      [[("t", "A")], [("t", "B")]] "t" "oversample" .nonnum none herr).2 (Or.inl rfl)⟩

theorem count_eq_countP_range {α : Type} [DecidableEq α] (l : List α) (r : α) :
    l.count r = (List.range l.length).countP (fun i => l.get? i == some r) := by
  induction l with
  | nil => rfl
  | cons a l ih =>
    rw [List.length_cons, List.range_succ_eq_map, List.countP_cons, List.countP_map,
      List.count_cons]
    have h1 : List.countP ((fun i => (a :: l).get? i == some r) ∘ Nat.succ) (List.range l.length) =
        List.countP (fun i => l.get? i == some r) (List.range l.length) := rfl
    have h2 : (((a :: l).get? 0 == some r)) = (a == r) := rfl
    rw [h1, h2, ih]

theorem count_filterMap_get {α : Type} [DecidableEq α] (df : List α) (ids : List ℕ) (r : α) :
    (ids.filterMap df.get?).count r = ids.countP (fun i => df.get? i == some r) := by
  induction ids with
  | nil => rfl
  | cons j js ih =>
    rw [List.filterMap_cons, List.countP_cons]
    cases h : df.get? j with
    | none => simp [h, ih]
    | some row =>
      rw [List.count_cons, ih]
      have h2 : ((some row : Option α) == some r) = (row == r) := rfl
      rw [h2]

theorem subperm_map {α β : Type} (f : α → β) {l₁ l₂ : List α} (h : List.Subperm l₁ l₂) :
    List.Subperm (l₁.map f) (l₂.map f) := by
  obtain ⟨l, hperm, hsub⟩ := h
  exact ⟨l.map f, hperm.map f, hsub.map f⟩

theorem countP_range_le (n : ℕ) (q : ℕ → Bool) (ids : List ℕ)
    (hkeep : ∀ i, i < n → i ∈ ids) :
    (List.range n).countP q ≤ ids.countP q := by
  have hTnd : ((List.range n).filter q).Nodup := (List.nodup_range n).filter q
  have hTsub : (List.range n).filter q ⊆ ids := fun i hi =>
    hkeep i (List.mem_range.mp (List.mem_of_mem_filter hi))
  calc (List.range n).countP q
      = ((List.range n).filter q).length := List.countP_eq_length_filter q _
    _ = ((List.range n).filter q).countP q :=
        (List.countP_eq_length.mpr (fun i hi => (List.mem_filter.mp hi).2)).symm
    _ ≤ ids.countP q := List.Subperm.countP_le q (hTnd.subperm hTsub)

/-- The over-sampler keeps every input row at least once (its contract:
original samples plus duplicated ones), so the input is a sub-permutation
of the reconstructed output. -/
theorem df_subperm_oversample (df : DTable) (rowIds : List ℕ)
    (hkeep : ∀ i, i < df.length → i ∈ rowIds) :
    List.Subperm df (oversample df rowIds) := by
  rw [List.subperm_ext_iff]
  intro r hr
  rw [oversample, count_filterMap_get, count_eq_countP_range df r]
  exact countP_range_le df.length _ rowIds hkeep

/-- Claim C9: under the over-sampler's contract (every input row id is kept
at least once in the returned selection), every row of the oversampled
table is value-for-value one of the input rows, and every class's output
row count is at least its input row count. -/
theorem oversample_duplicates_rows (df : DTable) (tcol : String) (rowIds : List ℕ)
    (hkeep : ∀ i, i < df.length → i ∈ rowIds) :
    (∀ r ∈ oversample df rowIds, r ∈ df)
    ∧ ∀ v, (targetVals df tcol).count v ≤ (targetVals (oversample df rowIds) tcol).count v := by
  constructor
  · intro r hr
    rcases List.mem_filterMap.mp hr with ⟨i, _, hget⟩
    exact List.get?_mem hget
  · intro v
    have hsp := df_subperm_oversample df rowIds hkeep
    exact (subperm_map (fun row => getCell row tcol) hsp).count_le v

/-- Witness for C9: a two-row table with selection [0, 1, 0] keeps both
rows, duplicates the first, and the per-class counts do not decrease. -/
theorem oversample_duplicates_rows_witness :
    (∀ i, i < ([[("t", "A")], [("t", "B")]] : DTable).length → i ∈ ([0, 1, 0] : List ℕ))
    ∧ (∀ r ∈ oversample [[("t", "A")], [("t", "B")]] [0, 1, 0],
        r ∈ ([[("t", "A")], [("t", "B")]] : DTable))
    ∧ ∀ v, (targetVals [[("t", "A")], [("t", "B")]] "t").count v ≤
        (targetVals (oversample [[("t", "A")], [("t", "B")]] [0, 1, 0]) "t").count v := by
  have hk : ∀ i, i < ([[("t", "A")], [("t", "B")]] : DTable).length → i ∈ ([0, 1, 0] : List ℕ) := by
    intro i hi
    have h2 : i < 2 := by simpa using hi
    interval_cases i <;> decide
  exact ⟨hk, (oversample_duplicates_rows [[("t", "A")], [("t", "B")]] "t" [0, 1, 0] hk).1,
    (oversample_duplicates_rows [[("t", "A")], [("t", "B")]] "t" [0, 1, 0] hk).2⟩

theorem computeSkewness_of_two_le {cells : List Cell}
    (h2 : 2 ≤ (cleanValues cells).length) :
    computeSkewness cells = .ok (some (scipySkew (cleanValues cells))) := by
  unfold computeSkewness
  rw [if_neg (by omega), if_neg (by omega)]

theorem computeSkewness_ok_some {cells : List Cell} {s : ℝ}
    (h : computeSkewness cells = .ok (some s)) :
    2 ≤ (cleanValues cells).length := by
  unfold computeSkewness at h
  split_ifs at h with h1 h2
  · exact absurd (Except.ok.inj h) (by simp)
  · omega

theorem getCol_setCol_self {df : STable} {c : String} {w : List Cell} (v : List Cell)
    (h : getCol df c = some w) :
    getCol (setCol df c v) c = some v := by
  induction df with
  | nil => cases h
  | cons p df ih =>
    obtain ⟨k, u⟩ := p
    by_cases hp : k = c
    · subst hp
      rw [setCol, if_pos (show ((k, u).1 = k) from rfl)]
      simp [getCol, List.lookup]
    · have hck : (c == k) = false := beq_eq_false_iff_ne.mpr (fun hh => hp hh.symm)
      rw [setCol, if_neg (show ¬((k, u).1 = c) from hp)]
      simp only [getCol, List.lookup, hck] at h ⊢
      exact ih h

theorem getCol_setCol_ne {df : STable} {c c' : String} (v : List Cell)
    (h : c' ≠ c) :
    getCol (setCol df c v) c' = getCol df c' := by
  induction df with
  | nil => rfl
  | cons p df ih =>
    obtain ⟨k, u⟩ := p
    by_cases hp : k = c
    · subst hp
      have hck : (c' == k) = false := beq_eq_false_iff_ne.mpr h
      rw [setCol, if_pos (show ((k, u).1 = k) from rfl)]
      simp only [getCol, List.lookup, hck]
      exact ih
    · rw [setCol, if_neg (show ¬((k, u).1 = c) from hp)]
      simp only [getCol, List.lookup]
      cases hcp : c' == k
      · exact ih
      · rfl

theorem applyTransformation_getCol_ne (yeoF quantF : List Cell → List Cell)
    (df : STable) (col : String) (s : ℝ) {c' : String} (h : c' ≠ col) :
    getCol (applyTransformation yeoF quantF df col s) c' = getCol df c' := by
  unfold applyTransformation
  split_ifs <;> first | rfl | exact getCol_setCol_ne _ h

theorem applyTransformation_getColD (yeoF quantF : List Cell → List Cell)
    {df : STable} {col : String} {cells : List Cell}
    (hcol : getCol df col = some cells) (s : ℝ) :
    getColD (applyTransformation yeoF quantF df col s) col =
      (if |s| ≤ 0.5 then cells
      else if s > 0.5 ∧ s ≤ 1 then mapNumCells npSqrt cells
      else if s > 1 ∧ s ≤ 2 then mapNumCells npLog1p cells
      else if s < -0.5 ∧ s ≥ -1 then mapNumCells (fun x => some (x ^ 2)) cells
      else if s < -1 ∧ s ≥ -2 then mapNumCells (fun x => some (x ^ 3)) cells
      else if (s > 2 ∧ s ≤ 3) ∨ (s < -2 ∧ s ≥ -3) then yeoF cells
      else quantF cells) := by
  have hD : (getCol df col).getD [] = cells := by rw [hcol]; rfl
  unfold applyTransformation
  split_ifs <;>
    simp only [getColD, getCol_setCol_self _ hcol, Option.getD_some, hD]

theorem correctColumn_of_none (yeoF quantF : List Cell → List Cell)
    {df : STable} {col : String} (hcol : getCol df col = none) :
    correctColumn yeoF quantF df col =
      (df, ⟨some "Column not found", none, none, none⟩) := by
  unfold correctColumn
  rw [hcol]

theorem correctColumn_of_some (yeoF quantF : List Cell → List Cell)
    {df : STable} {col : String} {cells : List Cell} (hcol : getCol df col = some cells) :
    correctColumn yeoF quantF df col = correctColumnBody yeoF quantF df col cells := by
  unfold correctColumn
  rw [hcol]

theorem body_of_error (yeoF quantF : List Cell → List Cell)
    {df : STable} {col : String} {cells : List Cell} {e : DataError}
    (hsk : computeSkewness cells = .error e) :
    correctColumnBody yeoF quantF df col cells =
      (df, ⟨some "insufficient data", none, none, none⟩) := by
  unfold correctColumnBody
  rw [hsk]

theorem body_of_ok_none (yeoF quantF : List Cell → List Cell)
    {df : STable} {col : String} {cells : List Cell}
    (hsk : computeSkewness cells = .ok none) :
    correctColumnBody yeoF quantF df col cells =
      (df, ⟨some "Unable to compute skewness", none, none, none⟩) := by
  unfold correctColumnBody
  rw [hsk]

theorem body_of_ok_some (yeoF quantF : List Cell → List Cell)
    {df : STable} {col : String} {cells : List Cell} {s : ℝ}
    (hsk : computeSkewness cells = .ok (some s)) :
    correctColumnBody yeoF quantF df col cells =
      if |s| ≤ 0.5 then
        (df, ⟨none, some s, some s, some (getTransformationMethod s)⟩)
      else correctColumnTransform yeoF quantF df col s := by
  unfold correctColumnBody
  rw [hsk]

theorem transform_of_ok (yeoF quantF : List Cell → List Cell)
    {df : STable} {col : String} {s : ℝ} {v : Option ℝ}
    (hsk : computeSkewness (getColD (applyTransformation yeoF quantF df col s) col) = .ok v) :
    correctColumnTransform yeoF quantF df col s =
      (applyTransformation yeoF quantF df col s,
        ⟨none, some s, v, some (getTransformationMethod s)⟩) := by
  unfold correctColumnTransform
  rw [hsk]

theorem correctColumnTransform_fst (yeoF quantF : List Cell → List Cell)
    (df : STable) (col : String) (s : ℝ) :
    (correctColumnTransform yeoF quantF df col s).1 =
      applyTransformation yeoF quantF df col s := by
  unfold correctColumnTransform
  cases computeSkewness (getColD (applyTransformation yeoF quantF df col s) col) <;> rfl

theorem correctColumn_getCol_ne (yeoF quantF : List Cell → List Cell)
    (df : STable) (col : String) {c' : String} (h : c' ≠ col) :
    getCol (correctColumn yeoF quantF df col).1 c' = getCol df c' := by
  cases hcol : getCol df col with
  | none => rw [correctColumn_of_none yeoF quantF hcol]
  | some cells =>
    rw [correctColumn_of_some yeoF quantF hcol]
    cases hsk : computeSkewness cells with
    | error e => rw [body_of_error yeoF quantF hsk]
    | ok v =>
      cases v with
      | none => rw [body_of_ok_none yeoF quantF hsk]
      | some s =>
        rw [body_of_ok_some yeoF quantF hsk]
        split_ifs
        · rfl
        · rw [correctColumnTransform_fst]
          exact applyTransformation_getCol_ne yeoF quantF df col s h

theorem skewReport_of_ok {cells : List Cell} {v : Option ℝ}
    (h : computeSkewness cells = .ok v) :
    skewReport cells = v := by
  unfold skewReport
  rw [h]
  cases v <;> rfl

theorem skewReport_of_error {cells : List Cell} {e : DataError}
    (h : computeSkewness cells = .error e) :
    skewReport cells = none := by
  unfold skewReport
  rw [h]

theorem transform_of_error (yeoF quantF : List Cell → List Cell)
    {df : STable} {col : String} {s : ℝ} {e : DataError}
    (hsk : computeSkewness (getColD (applyTransformation yeoF quantF df col s) col) = .error e) :
    correctColumnTransform yeoF quantF df col s =
      (applyTransformation yeoF quantF df col s,
        ⟨some "insufficient data", none, none, none⟩) := by
  unfold correctColumnTransform
  rw [hsk]

theorem correctColumnTransform_snd (yeoF quantF : List Cell → List Cell)
    (df : STable) (col : String) (s : ℝ) :
    (correctColumnTransform yeoF quantF df col s).2 =
      (match computeSkewness (getColD (applyTransformation yeoF quantF df col s) col) with
      | .ok v => (⟨none, some s, v, some (getTransformationMethod s)⟩ : SkewEntry)
      | .error _ => ⟨some "insufficient data", none, none, none⟩) := by
  unfold correctColumnTransform
  cases computeSkewness (getColD (applyTransformation yeoF quantF df col s) col) <;> rfl

/-- The per-column entry reads the frame only through the column it
corrects: two frames agreeing on that column produce the same entry —
sibling columns (and their transforms) cannot influence it. -/
theorem correctColumn_snd_congr (yeoF quantF : List Cell → List Cell)
    {df df' : STable} {col : String} (h : getCol df col = getCol df' col) :
    (correctColumn yeoF quantF df col).2 = (correctColumn yeoF quantF df' col).2 := by
  cases hcol : getCol df col with
  | none =>
    rw [correctColumn_of_none yeoF quantF hcol,
      correctColumn_of_none yeoF quantF (h.symm.trans hcol)]
  | some cells =>
    have hcol' : getCol df' col = some cells := h.symm.trans hcol
    rw [correctColumn_of_some yeoF quantF hcol, correctColumn_of_some yeoF quantF hcol']
    cases hsk : computeSkewness cells with
    | error e =>
      rw [body_of_error yeoF quantF hsk, body_of_error yeoF quantF hsk]
    | ok v =>
      cases v with
      | none =>
        rw [body_of_ok_none yeoF quantF hsk, body_of_ok_none yeoF quantF hsk]
      | some s =>
        rw [body_of_ok_some yeoF quantF hsk, body_of_ok_some yeoF quantF hsk]
        split_ifs with habs
        · rfl
        · rw [correctColumnTransform_snd, correctColumnTransform_snd,
            applyTransformation_getColD yeoF quantF hcol s,
            applyTransformation_getColD yeoF quantF hcol' s]

/-- Whenever the entry of `correct_column` carries an original skewness at
all, it is the skewness of the column's values as they were when the call
began; the error paths (including a post-transform recompute that fails on
too few usable values, e.g. after `np.sqrt` produced NaNs) carry none. -/
theorem correctColumn_original_reported (yeoF quantF : List Cell → List Cell)
    (df : STable) (col : String) :
    ∀ x, (correctColumn yeoF quantF df col).2.originalSkewness = some x →
      skewReport (getColD df col) = some x := by
  intro x hx
  cases hcol : getCol df col with
  | none =>
    rw [correctColumn_of_none yeoF quantF hcol] at hx
    cases hx
  | some cells =>
    have hD : getColD df col = cells := by rw [getColD, hcol]; rfl
    rw [correctColumn_of_some yeoF quantF hcol] at hx
    rw [hD]
    cases hsk : computeSkewness cells with
    | error e =>
      rw [body_of_error yeoF quantF hsk] at hx
      cases hx
    | ok v =>
      cases v with
      | none =>
        rw [body_of_ok_none yeoF quantF hsk] at hx
        cases hx
      | some s =>
        rw [body_of_ok_some yeoF quantF hsk] at hx
        rw [skewReport_of_ok hsk]
        split_ifs at hx with habs
        · exact hx
        · rw [correctColumnTransform_snd] at hx
          cases hsk2 : computeSkewness
              (getColD (applyTransformation yeoF quantF df col s) col) with
          | ok w =>
            rw [hsk2] at hx
            exact hx
          | error e =>
            rw [hsk2] at hx
            cases hx

theorem dinsert_lookup_ne {l : List (String × SkewEntry)} {k a : String} (v : SkewEntry)
    (hne : a ≠ k) :
    (dinsert k v l).lookup a = l.lookup a := by
  have hak : (a == k) = false := beq_eq_false_iff_ne.mpr hne
  induction l with
  | nil => simp [dinsert, List.lookup, hak]
  | cons p l ih =>
    obtain ⟨q, w⟩ := p
    rw [dinsert]
    by_cases hq : q = k
    · rw [if_pos (show (q, w).1 = k from hq)]
      have haq : (a == q) = false := beq_eq_false_iff_ne.mpr (fun hh => hne (hq ▸ hh))
      simp only [List.lookup, haq]
    · rw [if_neg (show ¬ (q, w).1 = k from hq)]
      simp only [List.lookup]
      cases haq : a == q
      · exact ih
      · rfl

theorem dinsert_lookup_self (l : List (String × SkewEntry)) (k : String) (v : SkewEntry) :
    (dinsert k v l).lookup k = some v := by
  induction l with
  | nil => simp [dinsert, List.lookup]
  | cons p l ih =>
    obtain ⟨q, w⟩ := p
    rw [dinsert]
    by_cases hq : q = k
    · rw [if_pos (show (q, w).1 = k from hq)]
      simp [List.lookup, hq]
    · rw [if_neg (show ¬ (q, w).1 = k from hq)]
      have hkq : (k == q) = false := beq_eq_false_iff_ne.mpr (fun hh => hq hh.symm)
      simp only [List.lookup, hkq]
      exact ih

theorem loop_lookup_not_mem (yeoF quantF : List Cell → List Cell)
    {cols : List String} {a : String} (hna : a ∉ cols) :
    ∀ st acc, (correctColumnsLoop yeoF quantF (st, acc) cols).2.lookup a = acc.lookup a := by
  induction cols with
  | nil => intro st acc; rfl
  | cons c rest ih =>
    intro st acc
    have hac : a ≠ c := fun h => hna (h ▸ List.mem_cons_self c rest)
    rw [correctColumnsLoop]
    rw [ih (fun h => hna (List.mem_cons_of_mem c h)) _ _]
    exact dinsert_lookup_ne _ hac

theorem loop_entries_local (yeoF quantF : List Cell → List Cell) (df : STable) :
    ∀ (cols : List String) (st : STable) (acc : List (String × SkewEntry)),
      cols.Nodup →
      (∀ c ∈ cols, getCol st c = getCol df c) →
      ∀ c ∈ cols, ∃ e,
        (correctColumnsLoop yeoF quantF (st, acc) cols).2.lookup c = some e
        ∧ e = (correctColumn yeoF quantF df c).2 := by
  intro cols
  induction cols with
  | nil => intro st acc _ _ c hc; cases hc
  | cons a rest ih =>
    intro st acc hnd hst c hc
    have hna : a ∉ rest := (List.nodup_cons.mp hnd).1
    rw [correctColumnsLoop]
    rcases List.mem_cons.mp hc with rfl | hcr
    · refine ⟨(correctColumn yeoF quantF st c).2, ?_, ?_⟩
      · rw [loop_lookup_not_mem yeoF quantF hna _ _]
        exact dinsert_lookup_self _ _ _
      · exact correctColumn_snd_congr yeoF quantF (hst c (List.mem_cons_self c rest))
    · refine ih _ _ (List.nodup_cons.mp hnd).2 ?_ c hcr
      intro c' hc'
      have hne : c' ≠ a := fun h => hna (h ▸ hc')
      rw [correctColumn_getCol_ne yeoF quantF st a hne]
      exact hst c' (List.mem_cons_of_mem a hc')

/-- Claim C4 (amended): in a batch over pairwise-distinct columns, every
requested column's dict entry is exactly the entry a single-column
`correct_column` run on the caller's input table would produce — sibling
transforms in the same batch never influence it — and whenever that entry
reports an original skewness at all, it is the skewness of the column's
values in the caller's input table. (The entry can instead report an error
with no skewness when the column's own transform leaves too few usable
values, e.g. `np.sqrt` of negatives producing NaNs — see the NaN
counterexample; and a duplicated request recomputes on transformed
values — see `batch_skew_duplicate_cex`.) A transformation applied to one
column never changes another column's values. -/
theorem batch_skew_independent (yeoF quantF : List Cell → List Cell)
    (df : STable) (cols : List String) (hnd : cols.Nodup) :
    (∀ c ∈ cols, ∃ e,
        ((correctMultipleColumns yeoF quantF df cols).2.2).lookup c = some e
        ∧ e = (correctColumn yeoF quantF df c).2
        ∧ ∀ x, e.originalSkewness = some x → skewReport (getColD df c) = some x)
    ∧ ∀ (dfx : STable) (a : String) (s : ℝ) (c : String), c ≠ a →
        getCol (applyTransformation yeoF quantF dfx a s) c = getCol dfx c := by
  constructor
  · intro c hc
    obtain ⟨e, he, heq⟩ := loop_entries_local yeoF quantF df cols df [] hnd
      (fun _ _ => rfl) c hc
    refine ⟨e, he, heq, ?_⟩
    intro x hx
    exact correctColumn_original_reported yeoF quantF df c x (heq ▸ hx)
  · intro dfx a s c hca
    exact applyTransformation_getCol_ne yeoF quantF dfx a s hca

/-- Witness for C4: on a one-column table with values [0, 1] the entry of
the (only) requested column is the single-column entry on the input table,
and its reported skewness maps back to the input column's skewness. -/
theorem batch_skew_independent_witness :
    (["A"] : List String).Nodup
    ∧ ∃ e, ((correctMultipleColumns (fun l => l) (fun l => l)
          [("A", [Cell.num 0, Cell.num 1])] ["A"]).2.2).lookup "A" = some e
        ∧ e = (correctColumn (fun l => l) (fun l => l)
            [("A", [Cell.num 0, Cell.num 1])] "A").2
        ∧ ∀ x, e.originalSkewness = some x →
            skewReport (getColD [("A", [Cell.num 0, Cell.num 1])] "A") = some x :=
  ⟨by decide,
    (batch_skew_independent (fun l => l) (fun l => l)
      [("A", [Cell.num 0, Cell.num 1])] ["A"] (by decide)).1 "A" (by decide)⟩

/-! ### Concrete evaluation: the column [0, 3, 4, 5]

Its biased skewness is g1 = -(9/7)/sqrt(7/2) ≈ -0.687, in the squared-power
band; squaring gives [0, 9, 16, 25], whose deviations from the mean 25/2
are symmetric, so the transformed skewness is exactly 0. -/

theorem mean_D : listMean [(0 : ℝ), 3, 4, 5] = 3 := by
  norm_num [listMean]

theorem m2_D : centralMoment 2 [(0 : ℝ), 3, 4, 5] = 7 / 2 := by
  unfold centralMoment
  rw [mean_D]
  norm_num

theorem m3_D : centralMoment 3 [(0 : ℝ), 3, 4, 5] = -(9 / 2) := by
  unfold centralMoment
  rw [mean_D]
  norm_num

theorem sqrt72_pos : 0 < Real.sqrt (7 / 2) :=
  Real.sqrt_pos.mpr (by norm_num)

theorem sqrt72_sq : Real.sqrt (7 / 2) ^ 2 = 7 / 2 :=
  Real.sq_sqrt (by norm_num)

theorem sqrt72_lb : 9 / 7 < Real.sqrt (7 / 2) := by
  nlinarith [sqrt72_sq, sqrt72_pos, sq_nonneg (Real.sqrt (7 / 2) - 9 / 7),
    sq_nonneg (Real.sqrt (7 / 2) + 9 / 7)]

theorem sqrt72_ub : Real.sqrt (7 / 2) < 18 / 7 := by
  nlinarith [sqrt72_sq, sqrt72_pos, sq_nonneg (Real.sqrt (7 / 2) - 18 / 7),
    sq_nonneg (Real.sqrt (7 / 2) + 18 / 7)]

theorem skew_D : scipySkew [(0 : ℝ), 3, 4, 5] = -(9 / 7) / Real.sqrt (7 / 2) := by
  unfold scipySkew
  rw [m2_D, m3_D]
  have ht3 : Real.sqrt (7 / 2) ^ 3 = 7 / 2 * Real.sqrt (7 / 2) := by
    rw [pow_succ, sqrt72_sq]
  rw [ht3]
  rw [div_eq_div_iff (by positivity) (ne_of_gt sqrt72_pos)]
  ring

theorem skewD_band : -1 ≤ scipySkew [(0 : ℝ), 3, 4, 5]
    ∧ scipySkew [(0 : ℝ), 3, 4, 5] < -0.5 := by
  rw [skew_D]
  constructor
  · rw [neg_div, neg_le, neg_neg, div_le_one sqrt72_pos]
    exact le_of_lt sqrt72_lb
  · rw [neg_div, show (-0.5 : ℝ) = -(0.5 : ℝ) from by norm_num, neg_lt_neg_iff,
      lt_div_iff₀ sqrt72_pos]
    nlinarith [sqrt72_ub]

theorem skewD_not_sym : ¬ |scipySkew [(0 : ℝ), 3, 4, 5]| ≤ 0.5 := by
  have h := skewD_band.2
  rw [abs_of_neg (by nlinarith [skewD_band.2])]
  intro hc
  nlinarith

theorem mapsq_D :
    mapNumCells (fun x => some (x ^ 2)) [Cell.num 0, Cell.num 3, Cell.num 4, Cell.num 5] =
      [Cell.num 0, Cell.num 9, Cell.num 16, Cell.num 25] := by
  show [Cell.num ((0 : ℝ) ^ 2), Cell.num ((3 : ℝ) ^ 2),
    Cell.num ((4 : ℝ) ^ 2), Cell.num ((5 : ℝ) ^ 2)] = _
  norm_num

theorem mean_sq : listMean [(0 : ℝ), 9, 16, 25] = 25 / 2 := by
  norm_num [listMean]

theorem m3_sq : centralMoment 3 [(0 : ℝ), 9, 16, 25] = 0 := by
  unfold centralMoment
  rw [mean_sq]
  norm_num

theorem skew_sq : scipySkew [(0 : ℝ), 9, 16, 25] = 0 := by
  unfold scipySkew
  rw [m3_sq]
  exact zero_div _

theorem skewD_ok : computeSkewness [Cell.num 0, Cell.num 3, Cell.num 4, Cell.num 5] =
    .ok (some (scipySkew [(0 : ℝ), 3, 4, 5])) :=
  computeSkewness_of_two_le (by decide)

theorem skewSq_ok : computeSkewness [Cell.num 0, Cell.num 9, Cell.num 16, Cell.num 25] =
    .ok (some 0) := by
  rw [computeSkewness_of_two_le (by decide)]
  rw [show cleanValues [Cell.num 0, Cell.num 9, Cell.num 16, Cell.num 25] =
    [(0 : ℝ), 9, 16, 25] from rfl, skew_sq]

theorem applyT_D (yeoF quantF : List Cell → List Cell) :
    applyTransformation yeoF quantF
        [("A", [Cell.num 0, Cell.num 3, Cell.num 4, Cell.num 5])] "A"
        (scipySkew [(0 : ℝ), 3, 4, 5]) =
      [("A", [Cell.num 0, Cell.num 9, Cell.num 16, Cell.num 25])] := by
  unfold applyTransformation
  rw [if_neg skewD_not_sym,
    if_neg (fun hc => absurd hc.1 (by nlinarith [skewD_band.2])),
    if_neg (fun hc => absurd hc.1 (by nlinarith [skewD_band.2])),
    if_pos ⟨skewD_band.2, skewD_band.1⟩]
  rw [show getColD [("A", [Cell.num 0, Cell.num 3, Cell.num 4, Cell.num 5])] "A" =
    [Cell.num 0, Cell.num 3, Cell.num 4, Cell.num 5] from rfl, mapsq_D]
  simp [setCol]

theorem methodD : getTransformationMethod (scipySkew [(0 : ℝ), 3, 4, 5]) = "Squared Power" :=
  (gtm_square_iff _).mpr ⟨skewD_band.1, skewD_band.2⟩

theorem correctColumn_D (yeoF quantF : List Cell → List Cell) :
    correctColumn yeoF quantF [("A", [Cell.num 0, Cell.num 3, Cell.num 4, Cell.num 5])] "A" =
      ([("A", [Cell.num 0, Cell.num 9, Cell.num 16, Cell.num 25])],
        ⟨none, some (scipySkew [(0 : ℝ), 3, 4, 5]), some 0, some "Squared Power"⟩) := by
  rw [correctColumn_of_some yeoF quantF
    (rfl : getCol [("A", [Cell.num 0, Cell.num 3, Cell.num 4, Cell.num 5])] "A" =
      some [Cell.num 0, Cell.num 3, Cell.num 4, Cell.num 5])]
  rw [body_of_ok_some yeoF quantF skewD_ok, if_neg skewD_not_sym]
  have hcol2 : getColD (applyTransformation yeoF quantF
      [("A", [Cell.num 0, Cell.num 3, Cell.num 4, Cell.num 5])] "A"
      (scipySkew [(0 : ℝ), 3, 4, 5])) "A" =
      [Cell.num 0, Cell.num 9, Cell.num 16, Cell.num 25] := by
    rw [applyT_D yeoF quantF]
    rfl
  have hsk2 : computeSkewness (getColD (applyTransformation yeoF quantF
      [("A", [Cell.num 0, Cell.num 3, Cell.num 4, Cell.num 5])] "A"
      (scipySkew [(0 : ℝ), 3, 4, 5])) "A") = .ok (some 0) := by
    rw [hcol2]
    exact skewSq_ok
  rw [transform_of_ok yeoF quantF hsk2, applyT_D yeoF quantF, methodD]

theorem correctColumn_Dsq (yeoF quantF : List Cell → List Cell) :
    correctColumn yeoF quantF [("A", [Cell.num 0, Cell.num 9, Cell.num 16, Cell.num 25])] "A" =
      ([("A", [Cell.num 0, Cell.num 9, Cell.num 16, Cell.num 25])],
        ⟨none, some 0, some 0, some "None (already symmetric)"⟩) := by
  rw [correctColumn_of_some yeoF quantF
    (rfl : getCol [("A", [Cell.num 0, Cell.num 9, Cell.num 16, Cell.num 25])] "A" =
      some [Cell.num 0, Cell.num 9, Cell.num 16, Cell.num 25])]
  rw [body_of_ok_some yeoF quantF skewSq_ok,
    if_pos (by rw [abs_zero]; norm_num : |(0 : ℝ)| ≤ 0.5),
    show getTransformationMethod 0 = "None (already symmetric)" from
      (gtm_none_iff 0).mpr (by rw [abs_zero]; norm_num)]

/-- Claim C5 (amended): `apply_correction` (every method) and the batch
`correct_multiple_columns` leave the caller's frame unchanged — their source
bodies only read the input frame, through non-mutating pandas calls and an
explicit copy. Single-column `correct_column` is the exception: it modifies
the frame it is handed in place, as its docstring states (see the
counterexample). -/
theorem corrections_preserve_caller_table
    (oL uL : DTable → String → Strategy → List ℕ)
    (sL : DTable → String → Strategy → Option (List String) → DTable)
    (df : DTable) (tcol method : String) (thr : Option RawThr)
    (cats : Option (List String)) (yeoF quantF : List Cell → List Cell)
    (sdf : STable) (cols : List String) :
    (applyCorrection oL uL sL df tcol method thr cats).1 = df
    ∧ (correctMultipleColumns yeoF quantF sdf cols).1 = sdf :=
  ⟨rfl, rfl⟩

/-- Counterexample to C5 as stated: `correct_column` on a one-column frame
holding [0, 3, 4, 5] (skew ≈ -0.687, squared-power band) leaves the
caller's frame holding [0, 9, 16, 25] — the claim's "never mutates the
table passed in" fails for the single-column operation. -/
theorem correct_column_mutates_cex :
    (correctColumn (fun l => l) (fun l => l)
        [("A", [Cell.num 0, Cell.num 3, Cell.num 4, Cell.num 5])] "A").1 ≠
      [("A", [Cell.num 0, Cell.num 3, Cell.num 4, Cell.num 5])] := by
  rw [correctColumn_D]
  intro h
  have h2 := (List.cons.injEq _ _ _ _ ▸ h).1
  have h3 := (Prod.mk.injEq .. ▸ h2).2
  have h4 := (List.cons.injEq _ _ _ _ ▸ h3).2
  have h5 := (List.cons.injEq _ _ _ _ ▸ h4).1
  exact absurd (Cell.num.injEq .. ▸ h5) (by norm_num)

/-- Claim C6 (amended): with at least two usable values, `compute_skewness`
returns the plain (biased) Fisher-Pearson coefficient g1 = m3 / m2^(3/2) —
scipy's default, with no sample-size adjustment; the spec's bias-adjusted G1
is this value times sqrt(n(n-1))/(n-2). -/
theorem skewness_is_plain_g1 (cells : List Cell)
    (h2 : 2 ≤ (cleanValues cells).length) :
    computeSkewness cells = .ok (some
      (centralMoment 3 (cleanValues cells) /
        Real.sqrt (centralMoment 2 (cleanValues cells)) ^ 3))
    ∧ specSkewG1 (cleanValues cells) =
        (centralMoment 3 (cleanValues cells) /
            Real.sqrt (centralMoment 2 (cleanValues cells)) ^ 3) *
          (Real.sqrt (((cleanValues cells).length : ℝ) *
              (((cleanValues cells).length : ℝ) - 1)) /
            (((cleanValues cells).length : ℝ) - 2)) :=
  ⟨computeSkewness_of_two_le h2, rfl⟩

/-- Witness for C6 at the two-element column [0, 1]. -/
theorem skewness_is_plain_g1_witness :
    2 ≤ (cleanValues [Cell.num 0, Cell.num 1]).length
    ∧ computeSkewness [Cell.num 0, Cell.num 1] = .ok (some
        (centralMoment 3 (cleanValues [Cell.num 0, Cell.num 1]) /
          Real.sqrt (centralMoment 2 (cleanValues [Cell.num 0, Cell.num 1])) ^ 3)) :=
  ⟨by decide,
    (skewness_is_plain_g1 [Cell.num 0, Cell.num 1] (by decide)).1⟩

/-- Counterexample to C6 as stated: on [0, 3, 4, 5] the code returns the
biased g1 = -(9/7)/sqrt(7/2), while the bias-adjusted G1 the claim
describes is g1 · sqrt(4·3)/2 ≠ g1. -/
theorem skewness_not_bias_adjusted_cex :
    computeSkewness [Cell.num 0, Cell.num 3, Cell.num 4, Cell.num 5] =
      .ok (some (scipySkew [(0 : ℝ), 3, 4, 5]))
    ∧ specSkewG1 [(0 : ℝ), 3, 4, 5] ≠ scipySkew [(0 : ℝ), 3, 4, 5] := by
  refine ⟨skewD_ok, ?_⟩
  intro h
  have hlen : (([(0 : ℝ), 3, 4, 5].length : ℝ)) = 4 := by norm_num
  unfold specSkewG1 at h
  rw [hlen] at h
  have hne : scipySkew [(0 : ℝ), 3, 4, 5] ≠ 0 := by
    have := skewD_band.2
    intro hc
    rw [hc] at this
    norm_num at this
  have hfac : (1 : ℝ) < Real.sqrt ((4 : ℝ) * (4 - 1)) / (4 - 2) := by
    have h4 : Real.sqrt 4 = 2 := by
      rw [show (4 : ℝ) = 2 ^ 2 from by norm_num]
      exact Real.sqrt_sq (by norm_num)
    have h12 : (2 : ℝ) < Real.sqrt 12 := by
      rw [← h4]
      exact Real.sqrt_lt_sqrt (by norm_num) (by norm_num)
    rw [show ((4 : ℝ) * (4 - 1)) = 12 from by norm_num]
    rw [show ((4 : ℝ) - 2) = 2 from by norm_num]
    linarith
  have hone : scipySkew [(0 : ℝ), 3, 4, 5] *
      (Real.sqrt ((4 : ℝ) * (4 - 1)) / (4 - 2)) = scipySkew [(0 : ℝ), 3, 4, 5] * 1 := by
    rw [mul_one]
    exact h
  have := mul_left_cancel₀ hne hone
  rw [this] at hfac
  norm_num at hfac

/-- Counterexample to C4 as stated: requesting the same column twice
(["A", "A"]) makes the second pass recompute the "original" skewness on the
already-squared values [0, 9, 16, 25]; the reported entry carries 0, while
the skewness of the column in the caller's input table is
-(9/7)/sqrt(7/2) ≠ 0. -/
theorem batch_skew_duplicate_cex :
    ∃ e, ((correctMultipleColumns (fun l => l) (fun l => l)
        [("A", [Cell.num 0, Cell.num 3, Cell.num 4, Cell.num 5])] ["A", "A"]).2.2).lookup "A" =
          some e
      ∧ e.originalSkewness = some 0
      ∧ skewReport (getColD [("A", [Cell.num 0, Cell.num 3, Cell.num 4, Cell.num 5])] "A") =
          some (scipySkew [(0 : ℝ), 3, 4, 5])
      ∧ (some (0 : ℝ)) ≠ some (scipySkew [(0 : ℝ), 3, 4, 5]) := by
  refine ⟨⟨none, some 0, some 0, some "None (already symmetric)"⟩, ?_, rfl, ?_, ?_⟩
  · show ((correctColumnsLoop (fun l => l) (fun l => l)
      ([("A", [Cell.num 0, Cell.num 3, Cell.num 4, Cell.num 5])], []) ["A", "A"]).2).lookup "A" = _
    rw [correctColumnsLoop, correctColumn_D]
    rw [correctColumnsLoop, correctColumn_Dsq]
    rw [correctColumnsLoop]
    simp [dinsert, List.lookup]
  · rw [show getColD [("A", [Cell.num 0, Cell.num 3, Cell.num 4, Cell.num 5])] "A" =
      [Cell.num 0, Cell.num 3, Cell.num 4, Cell.num 5] from rfl]
    exact skewReport_of_ok skewD_ok
  · intro h
    have h0 := Option.some.inj h
    have := skewD_band.2
    rw [← h0] at this
    norm_num at this

/-! ### Concrete evaluation: the column [-4, -3, -2, -1, 3.5]

Its biased skewness is g1 = (2142/125) / (169/25)^(3/2) = 2142/2197 ≈ 0.975
(a rational value, since m2 = (13/5)^2), in the square-root band; `np.sqrt`
then turns the four negative cells into NaN, one usable value remains, the
recompute raises, and `correct_column` reports an error entry with no
original skewness. -/

theorem mean_N : listMean [(-4 : ℝ), -3, -2, -1, 7 / 2] = -(13 / 10) := by
  norm_num [listMean]

theorem m2_N : centralMoment 2 [(-4 : ℝ), -3, -2, -1, 7 / 2] = 169 / 25 := by
  unfold centralMoment
  rw [mean_N]
  norm_num

theorem m3_N : centralMoment 3 [(-4 : ℝ), -3, -2, -1, 7 / 2] = 2142 / 125 := by
  unfold centralMoment
  rw [mean_N]
  norm_num

theorem sqrt_m2_N : Real.sqrt (169 / 25) = 13 / 5 := by
  rw [show (169 / 25 : ℝ) = (13 / 5) ^ 2 from by norm_num]
  exact Real.sqrt_sq (by norm_num)

theorem skew_N : scipySkew [(-4 : ℝ), -3, -2, -1, 7 / 2] = 2142 / 2197 := by
  unfold scipySkew
  rw [m2_N, m3_N, sqrt_m2_N]
  norm_num

theorem skewN_band : 0.5 < scipySkew [(-4 : ℝ), -3, -2, -1, 7 / 2]
    ∧ scipySkew [(-4 : ℝ), -3, -2, -1, 7 / 2] ≤ 1 := by
  rw [skew_N]
  norm_num

theorem skewN_not_sym : ¬ |scipySkew [(-4 : ℝ), -3, -2, -1, 7 / 2]| ≤ 0.5 := by
  rw [skew_N]
  rw [abs_of_pos (by norm_num)]
  norm_num

theorem skewN_ok : computeSkewness
    [Cell.num (-4), Cell.num (-3), Cell.num (-2), Cell.num (-1), Cell.num (7 / 2)] =
    .ok (some (scipySkew [(-4 : ℝ), -3, -2, -1, 7 / 2])) :=
  computeSkewness_of_two_le (by decide)

theorem mapsqrt_N :
    mapNumCells npSqrt
        [Cell.num (-4), Cell.num (-3), Cell.num (-2), Cell.num (-1), Cell.num (7 / 2)] =
      [Cell.missing, Cell.missing, Cell.missing, Cell.missing,
        Cell.num (Real.sqrt (7 / 2))] := by
  have h1 : npSqrt (-4) = none := by rw [npSqrt, if_neg (by norm_num : ¬ (0 : ℝ) ≤ -4)]
  have h2 : npSqrt (-3) = none := by rw [npSqrt, if_neg (by norm_num : ¬ (0 : ℝ) ≤ -3)]
  have h3 : npSqrt (-2) = none := by rw [npSqrt, if_neg (by norm_num : ¬ (0 : ℝ) ≤ -2)]
  have h4 : npSqrt (-1) = none := by rw [npSqrt, if_neg (by norm_num : ¬ (0 : ℝ) ≤ -1)]
  have h5 : npSqrt (7 / 2) = some (Real.sqrt (7 / 2)) := by
    rw [npSqrt, if_pos (by norm_num : (0 : ℝ) ≤ 7 / 2)]
  simp only [mapNumCells, List.map_cons, List.map_nil, h1, h2, h3, h4, h5]

theorem applyT_N (yeoF quantF : List Cell → List Cell) :
    applyTransformation yeoF quantF
        [("A", [Cell.num (-4), Cell.num (-3), Cell.num (-2), Cell.num (-1),
          Cell.num (7 / 2)])] "A"
        (scipySkew [(-4 : ℝ), -3, -2, -1, 7 / 2]) =
      [("A", [Cell.missing, Cell.missing, Cell.missing, Cell.missing,
        Cell.num (Real.sqrt (7 / 2))])] := by
  unfold applyTransformation
  rw [if_neg skewN_not_sym, if_pos ⟨skewN_band.1, skewN_band.2⟩]
  rw [show getColD [("A", [Cell.num (-4), Cell.num (-3), Cell.num (-2), Cell.num (-1),
    Cell.num (7 / 2)])] "A" =
    [Cell.num (-4), Cell.num (-3), Cell.num (-2), Cell.num (-1), Cell.num (7 / 2)] from rfl,
    mapsqrt_N]
  simp [setCol]

theorem correctColumn_N (yeoF quantF : List Cell → List Cell) :
    correctColumn yeoF quantF
        [("A", [Cell.num (-4), Cell.num (-3), Cell.num (-2), Cell.num (-1),
          Cell.num (7 / 2)])] "A" =
      ([("A", [Cell.missing, Cell.missing, Cell.missing, Cell.missing,
          Cell.num (Real.sqrt (7 / 2))])],
        ⟨some "insufficient data", none, none, none⟩) := by
  rw [correctColumn_of_some yeoF quantF
    (rfl : getCol [("A", [Cell.num (-4), Cell.num (-3), Cell.num (-2), Cell.num (-1),
      Cell.num (7 / 2)])] "A" =
      some [Cell.num (-4), Cell.num (-3), Cell.num (-2), Cell.num (-1), Cell.num (7 / 2)])]
  rw [body_of_ok_some yeoF quantF skewN_ok, if_neg skewN_not_sym]
  have hsk2 : computeSkewness (getColD (applyTransformation yeoF quantF
      [("A", [Cell.num (-4), Cell.num (-3), Cell.num (-2), Cell.num (-1),
        Cell.num (7 / 2)])] "A"
      (scipySkew [(-4 : ℝ), -3, -2, -1, 7 / 2])) "A") = .error .insufficientData := by
    rw [applyT_N yeoF quantF]
    rfl
  rw [transform_of_error yeoF quantF hsk2, applyT_N yeoF quantF]

/-- Counterexample to C4 as stated: on the duplicate-free request ["A"]
with column values [-4, -3, -2, -1, 3.5] (skew 2142/2197 ≈ 0.975,
square-root band), `np.sqrt` leaves one usable value, the recompute raises,
and the reported entry carries no original skewness at all — while the
skewness of the column in the caller's input table is 2142/2197. -/
theorem batch_skew_nan_cex :
    (["A"] : List String).Nodup
    ∧ ∃ e, ((correctMultipleColumns (fun l => l) (fun l => l)
        [("A", [Cell.num (-4), Cell.num (-3), Cell.num (-2), Cell.num (-1),
          Cell.num (7 / 2)])] ["A"]).2.2).lookup "A" = some e
      ∧ e.originalSkewness = none
      ∧ skewReport (getColD [("A", [Cell.num (-4), Cell.num (-3), Cell.num (-2),
            Cell.num (-1), Cell.num (7 / 2)])] "A") =
          some (scipySkew [(-4 : ℝ), -3, -2, -1, 7 / 2])
      ∧ (none : Option ℝ) ≠ some (scipySkew [(-4 : ℝ), -3, -2, -1, 7 / 2]) := by
  refine ⟨by decide, ⟨some "insufficient data", none, none, none⟩, ?_, rfl, ?_, by simp⟩
  · show ((correctColumnsLoop (fun l => l) (fun l => l)
      ([("A", [Cell.num (-4), Cell.num (-3), Cell.num (-2), Cell.num (-1),
        Cell.num (7 / 2)])], []) ["A"]).2).lookup "A" = _
    rw [correctColumnsLoop, correctColumn_N, correctColumnsLoop]
    simp [dinsert, List.lookup]
  · rw [show getColD [("A", [Cell.num (-4), Cell.num (-3), Cell.num (-2), Cell.num (-1),
      Cell.num (7 / 2)])] "A" =
      [Cell.num (-4), Cell.num (-3), Cell.num (-2), Cell.num (-1), Cell.num (7 / 2)]
      from rfl]
    exact skewReport_of_ok skewN_ok

end BiasXplorer
